import Mathlib

/-!
Verification of the findings-to-issues reconciliation pipeline implemented in
`automation/process-codeql-results.js`.  The JavaScript source is shallowly
embedded: text is modelled as `List Char` (`Str`), JavaScript string operations
(`includes`, `indexOf`, template literals, `substring`, regex scans) are
translated into executable Lean functions, and the external GitHub tracker is
modelled as an explicit state (`TrackerState`) threaded through the
reconciliation functions.  Remote calls (issue listing, prompt fetching,
file-system snippet extraction) are modelled as injected oracles at the
interface boundary.  Lengths and positions are counted in characters
(Lean `Char` = Unicode scalar values), whereas JavaScript counts UTF-16 code
units; the two differ only on astral-plane characters and the difference is
immaterial to the properties proved here.
-/

set_option maxRecDepth 40000

namespace S2P

/-- Text is modelled as a list of characters. -/
abbrev Str := List Char

/-- Conversion from Lean string literals to the `Str` model. -/
def ofS (s : String) : Str := s.data

/-- `isPre n h` is true when `n` is a prefix of `h` (helper for the embedding
of JavaScript `String.prototype.includes`). -/
def isPre : Str → Str → Bool
  | [], _ => true
  | _ :: _, [] => false
  | a :: as, b :: bs => a = b && isPre as bs

/-- Embedding of JavaScript `haystack.includes(needle)`: substring test. -/
def containsSub : Str → Str → Bool
  | [], n => n.isEmpty
  | h@(_ :: t), n => isPre n h || containsSub t n

/-- Embedding of a JavaScript string-valued `a || b` default (empty string is
falsy). -/
def jsOr (o : Option Str) (d : Str) : Str :=
  match o with
  | none => d
  | some v => if v = [] then d else v

/-- Embedding of a JavaScript number-valued `a || b` default (`0` is falsy,
as in `region.startLine || 1`). -/
def jsOrNat (o : Option Nat) (d : Nat) : Nat :=
  match o with
  | none => d
  | some v => if v = 0 then d else v

/-- Embedding of JavaScript `Array.prototype.indexOf` (`-1` when absent). -/
def jsIndexOf (l : List Str) (s : Str) : Int :=
  match l with
  | [] => -1
  | a :: t => if a = s then 0 else (if jsIndexOf t s = -1 then -1 else jsIndexOf t s + 1)

/-- Lookup in a JavaScript-object-as-association-list (first binding wins). -/
def alookup {α : Type} (l : List (Str × α)) (k : Str) : Option α :=
  (l.find? (fun p => decide (p.1 = k))).map (·.2)

/-- Decimal rendering of a number, as JavaScript template interpolation does. -/
def natStr (n : Nat) : Str := (Nat.repr n).data

/-- Whitespace class used for the embedded regex scans and `trim` (the ASCII
subset of JavaScript `\s`; the generated issue bodies only contain these). -/
def isWs (c : Char) : Bool :=
  c = ' ' || c = '\t' || c = '\n' || c = '\r' || c = '\x0b' || c = '\x0c'

def isDigit (c : Char) : Bool := '0' ≤ c && c ≤ '9'

/-- Embedding of JavaScript `String.prototype.trim`. -/
def strTrim (s : Str) : Str :=
  ((s.dropWhile isWs).reverse.dropWhile isWs).reverse

/-- ASCII upper-casing, embedding `toUpperCase` on the generated text. -/
def strUpper (s : Str) : Str := s.map Char.toUpper

/-- ASCII lower-casing, embedding `toLowerCase`. -/
def strLower (s : Str) : Str := s.map Char.toLower

/-- Replace the first occurrence of `pat` by `rep` (JavaScript
`String.prototype.replace` with a string pattern). -/
def replaceFirst : Str → Str → Str → Str
  | [], _, _ => []
  | h@(c :: t), pat, rep =>
    if isPre pat h then rep ++ h.drop pat.length
    else c :: replaceFirst t pat rep

/-- Split on a separator character (used for `split('-')` and `split('/')`). -/
def splitOnChar (sep : Char) (s : Str) : List Str :=
  match s with
  | [] => [[]]
  | c :: t =>
    let r := splitOnChar sep t
    if c = sep then [] :: r
    else match r with
      | [] => [[c]]
      | x :: xs => (c :: x) :: xs

/-- Embedding of Node `path.basename` (portion after the last `/`). -/
def basename (p : Str) : Str :=
  (splitOnChar '/' p).getLastD []

/-- Embedding of Node `path.extname`: from the last dot of the basename,
empty when there is no dot or only a leading dot. -/
def extname (p : Str) : Str :=
  let b := basename p
  let tail := b.reverse.takeWhile (· ≠ '.')
  if tail.length = b.length then []
  else if b.length = tail.length + 1 ∧ b.headI = '.' then []
  else '.' :: tail.reverse

/-- Insert an element at the end unless already present (JavaScript `Set`
insertion order / `includes`-guarded `push`). -/
def addIfAbsent (l : List Str) (x : Str) : List Str :=
  if x ∈ l then l else l ++ [x]

/-! ## Data model

The record types below mirror the objects built by the script: the
vulnerability objects pushed by `parseSARIFResults`, the grouped objects built
by `groupFindingsByRuleAndFile`, the static `prompt-mappings.json`
configuration, and the environment-derived `config` object (built once at
startup and treated as an explicit immutable parameter here; `config.now`
stands for the `new Date().toISOString()` timestamps taken during the run). -/

/-- One occurrence record pushed onto `occurrences` by
`groupFindingsByRuleAndFile`. -/
structure Occurrence where
  startLine : Nat
  endLine : Nat
  startColumn : Nat
  endColumn : Nat
  codeSnippet : Str
  message : Str
deriving DecidableEq, Inhabited

/-- One vulnerability object pushed by `parseSARIFResults`. -/
structure Finding where
  ruleId : Str
  ruleName : Str
  ruleHelp : Str
  message : Str
  level : Str
  severity : Str
  filePath : Str
  startLine : Nat
  endLine : Nat
  startColumn : Nat
  endColumn : Nat
  codeSnippet : Str
  tool : Str
  toolVersion : Str
deriving DecidableEq, Inhabited

/-- One grouped object built by `groupFindingsByRuleAndFile`. -/
structure GroupedFinding where
  ruleId : Str
  ruleName : Str
  ruleHelp : Str
  filePath : Str
  level : Str
  severity : Str
  tool : Str
  toolVersion : Str
  message : Str
  occurrences : List Occurrence
deriving DecidableEq, Inhabited

/-- One OWASP taxonomy entry of `mappings.owasp_categories`. -/
structure OwaspCategory where
  name : Str
  promptFile : Str
  maintainability : List Str
  threatModel : List Str
deriving DecidableEq, Inhabited

/-- One `maintainability_triggers` entry. -/
structure MaintTrigger where
  keywords : List Str
  promptFile : Str
deriving DecidableEq, Inhabited

/-- The static `prompt-mappings.json` lookup tables (JavaScript objects are
modelled as insertion-ordered association lists). -/
structure Mappings where
  severityMapping : List (Str × Str)
  codeqlToOwasp : List (Str × Str)
  owaspCategories : List (Str × OwaspCategory)
  labelMapping : List (Str × Str)
  maintainabilityTriggers : List (Str × MaintTrigger)
deriving DecidableEq, Inhabited

/-- The environment-derived `config` object. -/
structure Config where
  severityThreshold : Str
  maxIssuesPerRun : Nat
  enableMaintainability : Bool
  enableThreatModel : Bool
  autoAssign : List Str
  excludedPaths : List Str
  owner : Str
  repo : Str
  promptRepo : Str
  promptBranch : Str
  branch : Str
  sha : Str
  now : Str
deriving DecidableEq, Inhabited

/-! ## Finding grouper (`groupFindingsByRuleAndFile`) -/

/-- The JavaScript `Map` key `` `${finding.ruleId}:${finding.filePath}` ``. -/
def strKey (f : Finding) : Str := f.ruleId ++ ofS ":" ++ f.filePath

/-- The occurrence record pushed for a finding. -/
def toOcc (f : Finding) : Occurrence :=
  { startLine := f.startLine, endLine := f.endLine, startColumn := f.startColumn,
    endColumn := f.endColumn, codeSnippet := f.codeSnippet, message := f.message }

/-- The group metadata seeded from the first finding of a key (the
`groups.set(key, {...})` object before any `occurrences.push`). -/
def initGroup (f : Finding) : GroupedFinding :=
  { ruleId := f.ruleId, ruleName := f.ruleName, ruleHelp := f.ruleHelp,
    filePath := f.filePath, level := f.level, severity := f.severity,
    tool := f.tool, toolVersion := f.toolVersion, message := f.message,
    occurrences := [] }

/-- One iteration of the grouping loop over the insertion-ordered map. -/
def insertFinding : List (Str × GroupedFinding) → Finding → List (Str × GroupedFinding)
  | [], f => [(strKey f, { initGroup f with occurrences := [toOcc f] })]
  | (k, g) :: rest, f =>
    if k = strKey f then
      (k, { g with occurrences := g.occurrences ++ [toOcc f] }) :: rest
    else
      (k, g) :: insertFinding rest f

/-- Embedding of `groupFindingsByRuleAndFile`: fold the findings through the
insertion-ordered map and return `Array.from(groups.values())`. -/
def groupFindingsByRuleAndFile (findings : List Finding) : List GroupedFinding :=
  (findings.foldl insertFinding []).map (·.2)

/-! ### Characterization of the grouper -/

/-- Fuelled helper for `dedupFirst` (fuel keeps the recursion structural, so
that the kernel can still evaluate it on concrete inputs). -/
def dedupFirstF : Nat → List Str → List Str
  | 0, _ => []
  | _, [] => []
  | fuel + 1, k :: t => k :: dedupFirstF fuel (t.filter (fun x => decide (x ≠ k)))

/-- Keys in first-seen order with duplicates removed. -/
def dedupFirst (l : List Str) : List Str := dedupFirstF l.length l

/-- The group a key denotes: metadata of the first finding with that key,
occurrences of all findings with that key in input order. -/
def groupFor (fs : List Finding) (k : Str) : GroupedFinding :=
  match fs.find? (fun f => decide (strKey f = k)) with
  | some f =>
    { initGroup f with occurrences := (fs.filter (fun f' => decide (strKey f' = k))).map toOcc }
  | none =>
    { ruleId := [], ruleName := [], ruleHelp := [], filePath := [], level := [],
      severity := [], tool := [], toolVersion := [], message := [], occurrences := [] }

/-- The extension of already-created groups by the remaining findings. -/
def extendGroups (fs : List Finding) (acc : List (Str × GroupedFinding)) :
    List (Str × GroupedFinding) :=
  acc.map (fun p => (p.1, { p.2 with occurrences :=
    p.2.occurrences ++ (fs.filter (fun f => decide (strKey f = p.1))).map toOcc }))

/-- The groups created for keys not yet present. -/
def newGroups (fs : List Finding) (ks : List Str) : List (Str × GroupedFinding) :=
  (dedupFirst ((fs.filter (fun f => decide (strKey f ∉ ks))).map strKey)).map
    (fun k => (k, groupFor fs k))

/-- The group created for a key that first appears at the head of the input. -/
def consGroup (f : Finding) (fs' : List Finding) : GroupedFinding :=
  { initGroup f with occurrences :=
      (toOcc f :: (fs'.filter (fun f' => decide (strKey f' = strKey f))).map toOcc) }

/-! ## Filter stage (`meetsSeverityThreshold`, `shouldExcludePath`, `mapToOWASP`) -/

/-- The fixed severity order array of `meetsSeverityThreshold`. -/
def severityLevels : List Str := [ofS "low", ofS "medium", ofS "high", ofS "critical"]

/-- Embedding of `meetsSeverityThreshold`: compare `indexOf` positions
(`-1` for strings outside the array, as in JavaScript). -/
def meetsSeverityThreshold (cfg : Config) (severity : Str) : Bool :=
  decide (jsIndexOf severityLevels severity ≥ jsIndexOf severityLevels cfg.severityThreshold)

/-- Embedding of `shouldExcludePath`: substring match against each configured
excluded path. -/
def shouldExcludePath (cfg : Config) (filePath : Str) : Bool :=
  cfg.excludedPaths.any (fun excludedPath => containsSub filePath excludedPath)

/-- Embedding of `mapToOWASP`: rule id to OWASP key to category, `none` when
either lookup fails (the looked-up key is also subject to JavaScript
truthiness). -/
def mapToOWASP (m : Mappings) (ruleId : Str) : Option (Str × OwaspCategory) :=
  match alookup m.codeqlToOwasp ruleId with
  | none => none
  | some owaspKey =>
    if owaspKey = [] then none
    else match alookup m.owaspCategories owaspKey with
      | none => none
      | some category => some (owaspKey, category)

/-! ## Labels, title, maintainability detection, prompt assembly -/

/-- Embedding of `generateLabels`. -/
def generateLabels (m : Mappings) (g : GroupedFinding) (owaspInfo : Option (Str × OwaspCategory))
    (maintainabilityFiles : List Str) : List Str :=
  let labels := [ofS "codeql-finding"]
  let labels := match alookup m.labelMapping g.severity with
    | some severityLabel => if severityLabel = [] then labels else labels ++ [severityLabel]
    | none => labels
  let labels := match owaspInfo with
    | some info =>
      if info.1 = [] then labels else labels ++ [ofS "owasp/" ++ strLower info.1]
    | none => labels
  let labels := labels ++ maintainabilityFiles.map
    (fun file => ofS "maintainability/" ++ replaceFirst file (ofS ".md") [])
  labels ++ [ofS "awaiting-remediation-plan"]

/-- Embedding of `createIssueTitle`. -/
def createIssueTitle (g : GroupedFinding) : Str :=
  let fileName := basename g.filePath
  let count := g.occurrences.length
  ofS "[Security] " ++ g.ruleName ++ ofS " in " ++ fileName ++ ofS " (" ++ natStr count ++
    ofS " occurrence" ++ (if count > 1 then ofS "s" else []) ++ ofS ")"

/-- Embedding of `detectMaintainabilityConcerns` (the JavaScript `Set` keeps
insertion order and uniqueness). -/
def detectMaintainabilityConcerns (cfg : Config) (m : Mappings) (g : GroupedFinding) : List Str :=
  if !cfg.enableMaintainability then []
  else
    let searchText := strLower (g.message ++ ofS " " ++ g.ruleHelp ++ ofS " " ++ g.ruleId)
    m.maintainabilityTriggers.foldl (fun concerns kt =>
      if kt.2.keywords.any (fun keyword => containsSub searchText (strLower keyword)) then
        addIfAbsent concerns kt.2.promptFile
      else concerns) []

/-- The combined maintainability file list built in `processFindings`
(detected concerns plus the files mapped from the OWASP category, without
duplicates). -/
def maintFiles (cfg : Config) (m : Mappings) (ow : Str × OwaspCategory)
    (g : GroupedFinding) : List Str :=
  ow.2.maintainability.foldl (fun files aspect =>
    let file := aspect ++ ofS ".md"
    if file ∈ files then files else files ++ [file])
    (detectMaintainabilityConcerns cfg m g)

/-- One fetched prompt document. -/
structure PromptDoc where
  filename : Str
  content : Str
deriving DecidableEq, Inhabited

/-- The `prompts` object assembled in `processFindings`. -/
structure Prompts where
  owaspKey : Str
  owaspCategory : Str
  owaspFile : Str
  owaspPrompts : List PromptDoc
  maintainabilityPrompts : List PromptDoc
  threatModelPrompts : List PromptDoc
deriving DecidableEq, Inhabited

/-- The prompt assembly of `processFindings` (lines fetching OWASP,
maintainability and threat-model prompts); `fetch` is the remote
`fetchPrompt` oracle, returning `none` for missing or unverified content. -/
def promptsFor (cfg : Config) (m : Mappings) (fetch : Str → Str → Option Str)
    (ow : Str × OwaspCategory) (g : GroupedFinding) : Prompts :=
  let owaspPrompts := match fetch (ofS "owasp") ow.2.promptFile with
    | some content => [{ filename := ow.2.promptFile, content := content }]
    | none => []
  let maintainabilityPrompts := (maintFiles cfg m ow g).filterMap
    (fun file => (fetch (ofS "maintainability") file).map
      (fun content => ({ filename := file, content := content } : PromptDoc)))
  let threatModelPrompts := if cfg.enableThreatModel then
      ow.2.threatModel.filterMap (fun threat =>
        (fetch (ofS "threat-modeling") (threat ++ ofS ".md")).map
          (fun content => ({ filename := threat ++ ofS ".md", content := content } : PromptDoc)))
    else []
  { owaspKey := ow.1, owaspCategory := ow.2.name, owaspFile := ow.2.promptFile,
    owaspPrompts := owaspPrompts, maintainabilityPrompts := maintainabilityPrompts,
    threatModelPrompts := threatModelPrompts }

/-! ## Title extraction utilities (`extractOwaspInfo` and friends) -/

/-- Match `A` followed by two digits at the current position (the
`/A(\d{2})/` regex step). -/
def owaspNumAt (s : Str) : Option Str :=
  match s with
  | c :: d1 :: d2 :: _ =>
    if c = 'A' && isDigit d1 && isDigit d2 then some [c, d1, d2] else none
  | _ => none

/-- First match of `/A(\d{2})/` over the filename. -/
def owaspNumScan : Str → Option Str
  | [] => none
  | s@(_ :: t) =>
    match owaspNumAt s with
    | some r => some r
    | none => owaspNumScan t

/-- Backtracking step of `/^#\s+([^(—\n]+)/m`: try the whitespace run from
longest to shortest and capture the following run of allowed characters. -/
def titleTryK : Nat → Str → Option Str
  | 0, _ => none
  | k + 1, rest =>
    let cap := (rest.drop (k + 1)).takeWhile (fun c => !(c = '(' || c = '—' || c = '\n'))
    if cap.isEmpty then titleTryK k rest else some cap

/-- Scan for the first multiline match of `/^#\s+([^(—\n]+)/m` (the `Bool`
argument tracks whether the current position is a line start). -/
def titleScan : Str → Bool → Option Str
  | [], _ => none
  | c :: t, atStart =>
    if atStart && c = '#' then
      let wsLen := (t.takeWhile isWs).length
      match (if wsLen = 0 then none else titleTryK wsLen t) with
      | some cap => some cap
      | none => titleScan t (c = '\n')
    else titleScan t (c = '\n')

/-- Embedding of `extractOwaspInfo` (number from the filename, title from the
first heading). -/
def extractOwaspInfo (filename content : Str) : Str × Str :=
  let num := match owaspNumScan filename with
    | some n => n
    | none => []
  let title := match titleScan content true with
    | some cap => strTrim cap
    | none => []
  (num, title)

/-- First letter upper-cased (`charAt(0).toUpperCase() + slice(1)`). -/
def capitalize (w : Str) : Str :=
  match w with
  | [] => []
  | c :: rest => c.toUpper :: rest

def joinWith (sep : Str) : List Str → Str
  | [] => []
  | [x] => x
  | x :: xs => x ++ sep ++ joinWith sep xs

/-- Embedding of `extractMaintainabilityTitle`. -/
def extractMaintainabilityTitle (filename : Str) : Str :=
  joinWith (ofS " ") ((splitOnChar '-' (replaceFirst filename (ofS ".md") [])).map capitalize)

/-- Embedding of `extractStrideTitle` (same transformation as the
maintainability variant, kept separate as in the source). -/
def extractStrideTitle (filename : Str) : Str :=
  joinWith (ofS " ") ((splitOnChar '-' (replaceFirst filename (ofS ".md") [])).map capitalize)

/-! ## Content renderer (`createIssueBody`) -/

/-- Backtick-delimited marker, as produced by the `` \`${...}\` ``
template interpolations. -/
def tick (s : Str) : Str := ofS "`" ++ s ++ ofS "`"

/-- The file-extension-to-language table of `createIssueBody`. -/
def languageMap : List (Str × Str) :=
  [(ofS ".js", ofS "javascript"), (ofS ".ts", ofS "typescript"),
   (ofS ".jsx", ofS "javascript"), (ofS ".tsx", ofS "typescript"),
   (ofS ".py", ofS "python"), (ofS ".java", ofS "java"), (ofS ".go", ofS "go"),
   (ofS ".cs", ofS "csharp"), (ofS ".rb", ofS "ruby"), (ofS ".php", ofS "php")]

/-- The language chosen for code fences (`languageMap[ext] || 'text'`). -/
def bodyLanguage (g : GroupedFinding) : Str :=
  jsOr (alookup languageMap (strLower (extname g.filePath))) (ofS "text")

/-- The header of the issue body, up to the start of the per-occurrence
sections (metadata table with the backtick rule and file markers). -/
def bodyHeader (cfg : Config) (g : GroupedFinding) (pr : Prompts) : Str :=
  let count := g.occurrences.length
  ofS "## 🔴 Security Vulnerability: " ++ g.ruleName ++
  ofS "\n\n**Detected by**: " ++ g.tool ++ ofS " v" ++ g.toolVersion ++
  ofS "\n**Created**: " ++ cfg.now ++
  ofS "\n**Occurrences**: " ++ natStr count ++ ofS " location" ++
  (if count > 1 then ofS "s" else []) ++
  ofS " in this file\n\n---\n\n### 📋 Vulnerability Details\n\n| Property | Value |\n|----------|-------|\n| **Severity** | " ++
  strUpper g.severity ++
  ofS " |\n| **CodeQL Rule** | " ++ tick g.ruleId ++
  ofS " |\n| **OWASP Category** | [" ++ jsOr (some pr.owaspCategory) (ofS "Unknown") ++
  ofS "](https://maintainability.ai/docs/prompts/owasp/" ++ jsOr (some pr.owaspFile) [] ++
  ofS ") |\n| **File** | " ++ tick g.filePath ++
  ofS " |\n| **Total Occurrences** | " ++ natStr count ++
  ofS " |\n\n### 💻 Vulnerable Code Locations\n\n"

/-- One per-occurrence section (`groupedFinding.occurrences.forEach`). -/
def occurrenceSection (count : Nat) (language : Str) (index : Nat)
    (occurrence : Occurrence) : Str :=
  let lineRange := natStr occurrence.startLine ++
    (if occurrence.endLine ≠ occurrence.startLine
      then ofS "-" ++ natStr occurrence.endLine else [])
  let locationLabel := if count > 1 then
      ofS "#### Location " ++ natStr (index + 1) ++ ofS ": Lines " ++ lineRange
    else ofS "#### Lines " ++ lineRange
  ofS "\n" ++ locationLabel ++ ofS "\n\n```" ++ language ++ ofS "\n" ++
  jsOr (some occurrence.codeSnippet) (ofS "(No code snippet available)") ++
  ofS "\n```\n\n**Issue**: " ++ occurrence.message ++ ofS "\n\n"

/-- One nested OWASP prompt section. -/
def owaspPromptSection (pr : PromptDoc) : Str :=
  let info := extractOwaspInfo pr.filename pr.content
  ofS "\n<details>\n<summary>🔒 <strong>" ++ info.1 ++ ofS " - " ++ info.2 ++
  ofS "</strong></summary>\n\n" ++ pr.content ++ ofS "\n\n</details>\n\n"

/-- The collapsible OWASP guidance block. -/
def owaspBlock (prompts : List PromptDoc) : Str :=
  if prompts.length > 0 then
    ofS "\n<details>\n<summary>📘 <strong>OWASP Security Guidance</strong> (" ++
    natStr prompts.length ++ ofS " " ++
    (if prompts.length = 1 then ofS "guide" else ofS "guides") ++
    ofS ")</summary>\n\n" ++ (prompts.map owaspPromptSection).flatten ++
    ofS "\n</details>\n\n"
  else []

/-- One nested maintainability prompt section. -/
def maintPromptSection (pr : PromptDoc) : Str :=
  ofS "\n<details>\n<summary>📐 <strong>" ++ extractMaintainabilityTitle pr.filename ++
  ofS "</strong></summary>\n\n" ++ pr.content ++ ofS "\n\n</details>\n\n"

/-- The collapsible maintainability guidance block. -/
def maintBlock (prompts : List PromptDoc) : Str :=
  if prompts.length > 0 then
    ofS "\n<details>\n<summary>🏗️ <strong>Maintainability Guidance</strong> (" ++
    natStr prompts.length ++ ofS " " ++
    (if prompts.length = 1 then ofS "guide" else ofS "guides") ++
    ofS ")</summary>\n\n" ++ (prompts.map maintPromptSection).flatten ++
    ofS "\n</details>\n\n"
  else []

/-- One nested threat-model prompt section. -/
def threatPromptSection (pr : PromptDoc) : Str :=
  ofS "\n<details>\n<summary>🎭 <strong>" ++ extractStrideTitle pr.filename ++
  ofS "</strong></summary>\n\n" ++ pr.content ++ ofS "\n\n</details>\n\n"

/-- The collapsible threat-model block. -/
def threatBlock (prompts : List PromptDoc) : Str :=
  if prompts.length > 0 then
    ofS "\n<details>\n<summary>🎯 <strong>Threat Model Analysis (STRIDE)</strong> (" ++
    natStr prompts.length ++ ofS " " ++
    (if prompts.length = 1 then ofS "threat" else ofS "threats") ++
    ofS ")</summary>\n\n" ++ (prompts.map threatPromptSection).flatten ++
    ofS "\n</details>\n\n"
  else []

/-- The remediation call-to-action block. -/
def remediationZone (g : GroupedFinding) : Str :=
  let count := g.occurrences.length
  let plural := if count > 1 then ofS "s" else []
  ofS "\n\n---\n\n## 🤖 Claude Remediation Zone\n\nTo request a remediation plan for **all " ++
  natStr count ++ ofS " occurrence" ++ plural ++
  ofS "**, **copy and paste this comment**:\n\n```\n@claude Please provide a remediation plan for all " ++
  natStr count ++ ofS " occurrence" ++ plural ++ ofS " of this vulnerability in " ++
  g.filePath ++
  ofS " following the security and maintainability guidelines provided.\n```\n\n---\n\n"

/-- The collapsed metadata footer. -/
def metadataFooter (cfg : Config) (g : GroupedFinding) (pr : Prompts) : Str :=
  ofS "\n<details>\n<summary>📊 Additional Metadata</summary>\n\n- **Detection Time**: " ++
  cfg.now ++ ofS "\n- **Language**: " ++ capitalize (bodyLanguage g) ++
  ofS "\n- **Tool**: " ++ g.tool ++ ofS " v" ++ g.toolVersion ++
  ofS "\n- **Repository**: " ++ cfg.owner ++ ofS "/" ++ cfg.repo ++
  ofS "\n- **Branch**: " ++ cfg.branch ++
  ofS "\n- **Commit**: " ++ cfg.sha ++
  ofS "\n- **Rule ID**: " ++ g.ruleId ++
  ofS "\n- **OWASP Category**: " ++ jsOr (some pr.owaspKey) [] ++
  ofS "\n- **Severity**: " ++ g.severity ++ ofS " (CodeQL level: " ++ g.level ++
  ofS ")\n- **Prompt Source**: " ++ cfg.promptRepo ++ ofS "@" ++ cfg.promptBranch ++
  ofS "\n\n</details>\n"

/-- The assembled issue body, before the final size check. -/
def assembleIssueBody (cfg : Config) (g : GroupedFinding) (pr : Prompts) : Str :=
  let count := g.occurrences.length
  let language := bodyLanguage g
  bodyHeader cfg g pr ++
  (g.occurrences.enum.map (fun p => occurrenceSection count language p.1 p.2)).flatten ++
  (if g.ruleHelp.isEmpty then []
    else ofS "\n**Additional Context**: " ++ g.ruleHelp ++ ofS "\n") ++
  owaspBlock pr.owaspPrompts ++
  maintBlock pr.maintainabilityPrompts ++
  threatBlock pr.threatModelPrompts ++
  remediationZone g ++
  metadataFooter cfg g pr

/-- The `MAX_BODY_LENGTH` constant (GitHub's hard limit is 65536; the code
keeps a safety buffer). -/
def maxBodyLength : Nat := 65000

/-- The fixed truncation notice appended when the body is cut. -/
def truncNotice : Str :=
  ofS "\n\n---\n\n**⚠️ Note**: This issue was truncated due to size limits. See the OWASP category link above for complete security guidance."

/-- Embedding of `createIssueBody`: the assembled body, truncated with the
fixed notice when it exceeds `MAX_BODY_LENGTH`. -/
def createIssueBody (cfg : Config) (g : GroupedFinding) (pr : Prompts) : Str :=
  let body := assembleIssueBody cfg g pr
  if body.length > maxBodyLength then body.take maxBodyLength ++ truncNotice
  else body

/-! ## Tracker model

The external GitHub tracker is modelled as an explicit state.  The issue
listing used by the dedup lookup and the sweep is modelled as returning all
open sentinel-labelled issues (the source fetches a single page of up to 100;
the page is treated as complete at this interface).  Comments are recorded in
the mutation log, their text is not modelled. -/

/-- A tracked issue as seen through the tracker API. -/
structure Issue where
  number : Nat
  title : Str
  body : Str
  labels : List Str
  state : Str
  assignees : List Str
deriving DecidableEq, Inhabited

/-- One externally visible tracker mutation. -/
inductive Mut where
  | create (number : Nat)
  | update (number : Nat)
  | comment (number : Nat)
  | close (number : Nat)
  | addLabels (number : Nat)
deriving DecidableEq

instance : Inhabited Mut := ⟨Mut.create 0⟩

/-- The tracker state: issues, mutation log, next fresh issue number. -/
structure TrackerState where
  issues : List Issue
  log : List Mut
  nextNum : Nat
deriving DecidableEq, Inhabited

/-- The result of listing open issues with the `codeql-finding` label. -/
def openSentinelIssues (st : TrackerState) : List Issue :=
  st.issues.filter (fun i =>
    decide (i.state = ofS "open") && decide (ofS "codeql-finding" ∈ i.labels))

def openCount (st : TrackerState) : Nat :=
  (st.issues.filter (fun i => decide (i.state = ofS "open"))).length

/-- Tracker-state wellformedness: issue numbers are unique and below the next
fresh number. -/
def WFState (st : TrackerState) : Prop :=
  (st.issues.map (fun i => i.number)).Nodup ∧ ∀ i ∈ st.issues, i.number < st.nextNum

instance (st : TrackerState) : Decidable (WFState st) := by
  unfold WFState
  infer_instance

/-- Embedding of `findExistingIssue`: first listed issue whose body contains
both backtick markers; `none` both when nothing matches and when the listing
call failed (`listResult = none`, the catch logs and returns null). -/
def findExistingIssue (listResult : Option (List Issue)) (g : GroupedFinding) : Option Issue :=
  match listResult with
  | none => none
  | some issues =>
    issues.find? (fun issue =>
      containsSub issue.body (tick g.ruleId) && containsSub issue.body (tick g.filePath))

inductive IssueAction where
  | created
  | updated
deriving DecidableEq

instance : Inhabited IssueAction := ⟨IssueAction.created⟩

/-- Embedding of `createOrUpdateIssue`: update (full body/label replace plus a
redetection comment) when the dedup lookup finds a match, otherwise create a
fresh open issue with optional assignees. -/
def createOrUpdateIssue (cfg : Config) (st : TrackerState) (listResult : Option (List Issue))
    (g : GroupedFinding) (issueBody : Str) (labels : List Str) :
    TrackerState × IssueAction :=
  match findExistingIssue listResult g with
  | some existingIssue =>
    ({ issues := st.issues.map (fun i => if i.number = existingIssue.number then
          { i with body := issueBody, labels := labels } else i),
       log := st.log ++ [Mut.update existingIssue.number, Mut.comment existingIssue.number],
       nextNum := st.nextNum }, IssueAction.updated)
  | none =>
    let newIssue : Issue :=
      { number := st.nextNum, title := createIssueTitle g, body := issueBody,
        labels := labels, state := ofS "open",
        assignees := if cfg.autoAssign.length > 0 then cfg.autoAssign else [] }
    ({ issues := st.issues ++ [newIssue],
       log := st.log ++ [Mut.create st.nextNum],
       nextNum := st.nextNum + 1 }, IssueAction.created)

/-! ## Auto-close sweep (`autoCloseResolvedIssues`) -/

/-- Match, at the current position, a fixed literal (ending in an opening
backtick) followed by a nonempty backtick-free capture and a closing
backtick — one step of the first-match scan for the
`**CodeQL Rule**`/`**File**` table-row regexes. -/
def tickCaptureAt (lit : Str) (s : Str) : Option Str :=
  if isPre lit s then
    let rest := s.drop lit.length
    let cap := rest.takeWhile (fun c => !(c = '`'))
    if cap.isEmpty then none
    else if (rest.drop cap.length).head? = some '`' then some cap else none
  else none

/-- First match of the table-row regex over the body. -/
def tickCaptureScan (lit : Str) : Str → Option Str
  | [] => none
  | s@(_ :: t) =>
    match tickCaptureAt lit s with
    | some cap => some cap
    | none => tickCaptureScan lit t

/-- Case-insensitive match of `Lines?\s+(\d+)(?:-\d+)?` at the current
position: captured digit string and remainder after the full match. -/
def matchLineAt (s : Str) : Option (Str × Str) :=
  match s with
  | c1 :: c2 :: c3 :: c4 :: rest =>
    if (c1 = 'l' || c1 = 'L') && (c2 = 'i' || c2 = 'I') && (c3 = 'n' || c3 = 'N') &&
        (c4 = 'e' || c4 = 'E') then
      let afterS := match rest with
        | c5 :: rest' => if c5 = 's' || c5 = 'S' then rest' else rest
        | [] => rest
      let ws := afterS.takeWhile isWs
      if ws.isEmpty then none
      else
        let afterWs := afterS.drop ws.length
        let digits := afterWs.takeWhile isDigit
        if digits.isEmpty then none
        else
          let afterDigits := afterWs.drop digits.length
          let remainder := match afterDigits with
            | '-' :: r2 =>
              let digits2 := r2.takeWhile isDigit
              if digits2.isEmpty then afterDigits else r2.drop digits2.length
            | _ => afterDigits
          some (digits, remainder)
    else none
  | _ => none

/-- Fuelled scanner for all (non-overlapping) `Lines` matches; the fuel keeps
the recursion structural and one unit per step suffices because every step
consumes at least one character. -/
def lineScanF : Nat → Str → List Str
  | 0, _ => []
  | _ + 1, [] => []
  | fuel + 1, s@(_ :: t) =>
    match matchLineAt s with
    | some capRem => capRem.1 :: lineScanF fuel capRem.2
    | none => lineScanF fuel t

/-- All matches of `/Lines?\s+(\d+)(?:-\d+)?/gi` over the body, in order. -/
def lineScan (s : Str) : List Str := lineScanF s.length s

/-- Match of the legacy `/\*\*Lines\*\* \| (\d+)/` row at the current
position. -/
def oldFormatAt (s : Str) : Option Str :=
  if isPre (ofS "**Lines** | ") s then
    let digits := (s.drop (ofS "**Lines** | ").length).takeWhile isDigit
    if digits.isEmpty then none else some digits
  else none

/-- First match of the legacy single-line format. -/
def oldFormatScan : Str → Option Str
  | [] => none
  | s@(_ :: t) =>
    match oldFormatAt s with
    | some d => some d
    | none => oldFormatScan t

/-- The `ruleId:filePath:line` vulnerability key. -/
def vulnKey (ruleId filePath line : Str) : Str :=
  ruleId ++ ofS ":" ++ filePath ++ ofS ":" ++ line

/-- The marker extraction of the auto-close sweep: rule and file captures from
the table-row regexes, then the deduplicated line-number strings from all
`Lines` matches, with the legacy single-line fallback; `none` when the rule or
file marker is missing or when no line number can be parsed. -/
def parseCloseInfo (body : Str) : Option (Str × Str × List Str) :=
  match tickCaptureScan (ofS "**CodeQL Rule** | `") body,
        tickCaptureScan (ofS "**File** | `") body with
  | some ruleId, some filePath =>
    let issueLines := (lineScan body).foldl addIfAbsent []
    let issueLines := if issueLines.isEmpty then
        match oldFormatScan body with
        | some d => [d]
        | none => []
      else issueLines
    if issueLines.isEmpty then none else some (ruleId, filePath, issueLines)
  | _, _ => none

/-- Whether the sweep closes an issue: it must be an open sentinel-labelled
issue without the `false-positive` override, its markers must parse, and none
of its parsed line keys may be in the current run's key set. -/
def sweepCloses (keys : List Str) (issue : Issue) : Bool :=
  decide (issue.state = ofS "open") && decide (ofS "codeql-finding" ∈ issue.labels) &&
  !decide (ofS "false-positive" ∈ issue.labels) &&
  (match parseCloseInfo issue.body with
   | none => false
   | some info => info.2.2.all (fun line => !decide (vulnKey info.1 info.2.1 line ∈ keys)))

/-- The closed form of an issue: state transition plus the `resolved` label. -/
def closeIssue (issue : Issue) : Issue :=
  { issue with state := ofS "closed", labels := issue.labels ++ [ofS "resolved"] }

/-- Embedding of `autoCloseResolvedIssues`: close every issue the sweep
decides on, record the mutations, and return the closed count. -/
def autoCloseResolvedIssues (keys : List Str) (st : TrackerState) : Nat × TrackerState :=
  let closedNums := (st.issues.filter (sweepCloses keys)).map (fun i => i.number)
  (closedNums.length,
   { issues := st.issues.map (fun i => if sweepCloses keys i then closeIssue i else i),
     log := st.log ++ closedNums.flatMap
       (fun n => [Mut.close n, Mut.comment n, Mut.addLabels n]),
     nextNum := st.nextNum })

/-! ## SARIF parser (`parseSARIFResults`) -/

structure SarifRegion where
  startLine : Option Nat
  endLine : Option Nat
  startColumn : Option Nat
  endColumn : Option Nat
  snippetText : Option Str
deriving DecidableEq, Inhabited

structure SarifPhysicalLocation where
  artifactUri : Option Str
  region : Option SarifRegion
deriving DecidableEq, Inhabited

structure SarifLocation where
  physicalLocation : Option SarifPhysicalLocation
deriving DecidableEq, Inhabited

structure SarifRule where
  id : Str
  name : Option Str
  shortDescriptionText : Option Str
  helpText : Option Str
  fullDescriptionText : Option Str
deriving DecidableEq, Inhabited

structure SarifDriver where
  name : Option Str
  semanticVersion : Option Str
  version : Option Str
  rules : List SarifRule
deriving DecidableEq, Inhabited

structure SarifResult where
  ruleId : Str
  messageText : Option Str
  level : Option Str
  locations : List SarifLocation
deriving DecidableEq, Inhabited

structure SarifRun where
  driver : Option SarifDriver
  results : List SarifResult
deriving DecidableEq, Inhabited

structure Sarif where
  runs : List SarifRun
deriving DecidableEq, Inhabited

/-- Embedding of `parseSARIFResults`.  The `sarif` argument is the outcome of
reading and `JSON.parse`-ing the report file: `none` when the file is missing
or the parse throws (both caught in the source, which logs an error and
returns an empty list).  `extractSnippet` is the file-system backfill oracle
standing for `extractCodeSnippet` (its fallback strings included). -/
def parseSARIFResults (m : Mappings) (extractSnippet : Str → Nat → Nat → Str)
    (sarif : Option Sarif) : List Finding :=
  match sarif with
  | none => []
  | some sarif =>
    sarif.runs.flatMap (fun run =>
      let tool := jsOr (run.driver.bind (fun d => d.name)) (ofS "CodeQL")
      let toolVersion := jsOr (run.driver.bind (fun d => d.semanticVersion))
        (jsOr (run.driver.bind (fun d => d.version)) (ofS "unknown"))
      run.results.filterMap (fun result =>
        match (result.locations.head?).bind (fun l => l.physicalLocation) with
        | none => none
        | some location =>
          let ruleId := result.ruleId
          let message := jsOr result.messageText (ofS "No description provided")
          let level := jsOr result.level (ofS "warning")
          let filePath := jsOr location.artifactUri (ofS "unknown")
          let region := location.region.getD default
          let startLine := jsOrNat region.startLine 1
          let endLine := jsOrNat region.endLine startLine
          let startColumn := jsOrNat region.startColumn 1
          let endColumn := jsOrNat region.endColumn startColumn
          let snippet0 := jsOr region.snippetText []
          let codeSnippet := if (strTrim snippet0).isEmpty then
              extractSnippet filePath startLine endLine
            else snippet0
          let rule := ((run.driver.map (fun d => d.rules)).getD []).find?
            (fun r => decide (r.id = ruleId))
          let ruleName := jsOr (rule.bind (fun r => r.shortDescriptionText))
            (jsOr (rule.bind (fun r => r.name)) ruleId)
          let ruleHelp := jsOr (rule.bind (fun r => r.helpText))
            (jsOr (rule.bind (fun r => r.fullDescriptionText)) [])
          some { ruleId := ruleId, ruleName := ruleName, ruleHelp := ruleHelp,
                 message := message, level := level,
                 severity := jsOr (alookup m.severityMapping level) (ofS "medium"),
                 filePath := filePath, startLine := startLine, endLine := endLine,
                 startColumn := startColumn, endColumn := endColumn,
                 codeSnippet := strTrim codeSnippet, tool := tool,
                 toolVersion := toolVersion }))

/-! ## Main processing (`processFindings`, `main`) -/

/-- The run summary counters. -/
structure RunResults where
  total : Nat
  created : Nat
  updated : Nat
  skipped : Nat
  closed : Nat
  errors : Nat
  bySeverity : List (Str × Nat)
  byOwasp : List (Str × Nat)
deriving DecidableEq, Inhabited

/-- JavaScript-object counter increment: update in place, or append a new
key. -/
def incrCount (l : List (Str × Nat)) (k : Str) : List (Str × Nat) :=
  if (alookup l k).isSome then l.map (fun p => if p.1 = k then (p.1, p.2 + 1) else p)
  else l ++ [(k, 1)]

/-- The initial `results` object of `processFindings`. -/
def initResults (total : Nat) : RunResults :=
  { total := total, created := 0, updated := 0, skipped := 0, closed := 0, errors := 0,
    bySeverity := [(ofS "critical", 0), (ofS "high", 0), (ofS "medium", 0), (ofS "low", 0)],
    byOwasp := [] }

/-- The `processFindings` loop, one recursive step per grouped finding.
`total` is `groupedFindings.length`, `processedCount` counts completed
create/update operations, `keys` accumulates the live vulnerability keys for
the auto-close sweep.  `listOk` says whether the dedup lookup's listing call
succeeds for a given grouped finding (`false` models a thrown request, whose
catch inside `findExistingIssue` returns null); a failure-free run uses
`fun _ => true`. -/
def processGo (cfg : Config) (m : Mappings) (fetch : Str → Str → Option Str)
    (listOk : GroupedFinding → Bool) (total : Nat) :
    List GroupedFinding → Nat → List Str → RunResults → TrackerState →
    RunResults × List Str × TrackerState
  | [], _, keys, results, st => (results, keys, st)
  | g :: gs, processedCount, keys, results, st =>
    if processedCount ≥ cfg.maxIssuesPerRun then
      ({ results with skipped := results.skipped + (total - processedCount) }, keys, st)
    else
      let results := { results with bySeverity := incrCount results.bySeverity g.severity }
      if !meetsSeverityThreshold cfg g.severity then
        processGo cfg m fetch listOk total gs processedCount keys
          { results with skipped := results.skipped + 1 } st
      else if shouldExcludePath cfg g.filePath then
        processGo cfg m fetch listOk total gs processedCount keys
          { results with skipped := results.skipped + 1 } st
      else
        match mapToOWASP m g.ruleId with
        | none =>
          processGo cfg m fetch listOk total gs processedCount keys
            { results with skipped := results.skipped + 1 } st
        | some owaspInfo =>
          let results := { results with byOwasp := incrCount results.byOwasp owaspInfo.1 }
          let prompts := promptsFor cfg m fetch owaspInfo g
          let issueBody := createIssueBody cfg g prompts
          let labels := generateLabels m g (some owaspInfo) (maintFiles cfg m owaspInfo g)
          let pr := createOrUpdateIssue cfg st
            (if listOk g then some (openSentinelIssues st) else none) g issueBody labels
          let results := match pr.2 with
            | IssueAction.created => { results with created := results.created + 1 }
            | IssueAction.updated => { results with updated := results.updated + 1 }
          let keys := keys ++ g.occurrences.map
            (fun occurrence => vulnKey g.ruleId g.filePath (natStr occurrence.startLine))
          processGo cfg m fetch listOk total gs (processedCount + 1) keys results pr.1

/-- The loop part of `processFindings` (grouping, filtering, create/update,
key accumulation), before the auto-close sweep. -/
def processFindingsCore (cfg : Config) (m : Mappings) (fetch : Str → Str → Option Str)
    (listOk : GroupedFinding → Bool) (findings : List Finding) (st : TrackerState) :
    RunResults × List Str × TrackerState :=
  let groupedFindings := groupFindingsByRuleAndFile findings
  processGo cfg m fetch listOk groupedFindings.length groupedFindings 0 []
    (initResults findings.length) st

/-- Embedding of `processFindings`: the loop, then the auto-close sweep over
the accumulated keys. -/
def processFindings (cfg : Config) (m : Mappings) (fetch : Str → Str → Option Str)
    (listOk : GroupedFinding → Bool) (findings : List Finding) (st : TrackerState) :
    RunResults × TrackerState :=
  let r := processFindingsCore cfg m fetch listOk findings st
  let sweep := autoCloseResolvedIssues r.2.1 r.2.2
  ({ r.1 with closed := sweep.1 }, sweep.2)

/-- Embedding of `main`: parse, then either the empty-findings early return
(a summary of zeros and a normal exit) or full processing.  The first
component is the process exit code: `1` exactly when the run recorded
processing errors (the `results.errors.length > 0` check); the fatal catch
of `main` is unreachable in this failure-free embedding. -/
def mainRun (cfg : Config) (m : Mappings) (fetch : Str → Str → Option Str)
    (listOk : GroupedFinding → Bool) (extractSnippet : Str → Nat → Nat → Str)
    (sarif : Option Sarif) (st : TrackerState) : Nat × RunResults × TrackerState :=
  let findings := parseSARIFResults m extractSnippet sarif
  if findings.length = 0 then
    (0, initResults 0, st)
  else
    let r := processFindings cfg m fetch listOk findings st
    (if r.1.errors > 0 then 1 else 0, r.1, r.2)

/-! ## Reference definitions for the theorems -/

/-- Number of create/update mutations in a log. -/
def countCU (log : List Mut) : Nat :=
  (log.filter (fun mu => match mu with
    | Mut.create _ => true
    | Mut.update _ => true
    | _ => false)).length

inductive RejectReason where
  | belowSeverity
  | excludedPath
  | noMapping
deriving DecidableEq

instance : Inhabited RejectReason := ⟨RejectReason.belowSeverity⟩

/-- The rejection attribution of the filter cascade in the `processFindings`
loop (first failing check wins; `none` means the grouped finding passes all
three checks). -/
def rejectionReason (cfg : Config) (m : Mappings) (g : GroupedFinding) : Option RejectReason :=
  if !meetsSeverityThreshold cfg g.severity then some RejectReason.belowSeverity
  else if shouldExcludePath cfg g.filePath then some RejectReason.excludedPath
  else if (mapToOWASP m g.ruleId).isNone then some RejectReason.noMapping
  else none

/-- Position of the first occurrence in a list, used by the spec-side
severity order. -/
def orderIdx : List Str → Str → Option Nat
  | [], _ => none
  | a :: t, s => if a = s then some 0 else (orderIdx t s).map (fun i => i + 1)

/-- Modelled from the spec: severity meets or exceeds the configured
threshold under the fixed total order low < medium < high < critical, both
sides read as members of that order. -/
def specSeverityMeets (severity threshold : Str) : Prop :=
  ∃ i j, orderIdx severityLevels severity = some i ∧
    orderIdx severityLevels threshold = some j ∧ j ≤ i

/-- Modelled from the spec: an exclusion substring occurs in the file path. -/
def specPathExcluded (excludedPaths : List Str) (filePath : Str) : Prop :=
  ∃ e ∈ excludedPaths, ∃ p sfx, filePath = p ++ e ++ sfx

/-- The open sentinel-labelled issues among a list whose body carries both
backtick markers of a grouped finding (the dedup matching relation). -/
def matchingOpen (issues : List Issue) (g : GroupedFinding) : List Issue :=
  (issues.filter (fun i =>
    decide (i.state = ofS "open") && decide (ofS "codeql-finding" ∈ i.labels))).filter
    (fun issue =>
      containsSub issue.body (tick g.ruleId) && containsSub issue.body (tick g.filePath))

/-- The fresh issue record built by the create path of `createOrUpdateIssue`. -/
def createdIssue (cfg : Config) (st : TrackerState) (g : GroupedFinding)
    (issueBody : Str) (labels : List Str) : Issue :=
  { number := st.nextNum, title := createIssueTitle g, body := issueBody,
    labels := labels, state := ofS "open",
    assignees := if cfg.autoAssign.length > 0 then cfg.autoAssign else [] }

/-- Reference trace of which grouped findings the loop processes (the cap and
filter control flow of `processGo`, without effects). -/
def procRef (cfg : Config) (m : Mappings) : List GroupedFinding → Nat → List GroupedFinding
  | [], _ => []
  | g :: gs, processedCount =>
    if processedCount ≥ cfg.maxIssuesPerRun then []
    else if !meetsSeverityThreshold cfg g.severity then procRef cfg m gs processedCount
    else if shouldExcludePath cfg g.filePath then procRef cfg m gs processedCount
    else if (mapToOWASP m g.ruleId).isNone then procRef cfg m gs processedCount
    else g :: procRef cfg m gs (processedCount + 1)

/-- The rendered body the loop uses for a passing grouped finding. -/
def bodyFor (cfg : Config) (m : Mappings) (fetch : Str → Str → Option Str)
    (g : GroupedFinding) : Str :=
  match mapToOWASP m g.ruleId with
  | some owaspInfo => createIssueBody cfg g (promptsFor cfg m fetch owaspInfo g)
  | none => []

/-- The labels the loop uses for a passing grouped finding. -/
def labelsFor (cfg : Config) (m : Mappings) (g : GroupedFinding) : List Str :=
  match mapToOWASP m g.ruleId with
  | some owaspInfo => generateLabels m g (some owaspInfo) (maintFiles cfg m owaspInfo g)
  | none => []

/-- One reconciliation step (dedup lookup then create-or-update) for a
passing grouped finding with a successful listing call. -/
def reconStep (cfg : Config) (m : Mappings) (fetch : Str → Str → Option Str)
    (g : GroupedFinding) (st : TrackerState) : TrackerState × IssueAction :=
  createOrUpdateIssue cfg st (some (openSentinelIssues st)) g
    (bodyFor cfg m fetch g) (labelsFor cfg m g)

/-- The reconciliation fold over the processed grouped findings, collecting
the actions taken. -/
def reconGo (cfg : Config) (m : Mappings) (fetch : Str → Str → Option Str) :
    List GroupedFinding → TrackerState → TrackerState × List IssueAction
  | [], st => (st, [])
  | g :: gs, st =>
    let p := reconStep cfg m fetch g st
    let rest := reconGo cfg m fetch gs p.1
    (rest.1, p.2 :: rest.2)

/-- The vulnerability keys contributed by a grouped finding's occurrences. -/
def occKeys (g : GroupedFinding) : List Str :=
  g.occurrences.map (fun occurrence =>
    vulnKey g.ruleId g.filePath (natStr occurrence.startLine))

def countCreated (acts : List IssueAction) : Nat :=
  (acts.filter (fun a => decide (a = IssueAction.created))).length

def countUpdated (acts : List IssueAction) : Nat :=
  (acts.filter (fun a => decide (a = IssueAction.updated))).length

/-! ## Concrete fixtures for witnesses and counterexamples -/

/-- Concrete configuration fixture. -/
def fixCfg : Config :=
  { severityThreshold := ofS "high", maxIssuesPerRun := 10, enableMaintainability := false,
    enableThreatModel := false, autoAssign := [], excludedPaths := [], owner := ofS "own",
    repo := ofS "rep", promptRepo := ofS "prepo", promptBranch := ofS "main",
    branch := ofS "main", sha := ofS "abc123", now := ofS "2026-01-01T00:00:00.000Z" }

/-- The fixture configuration with a cap of one issue per run. -/
def capCfg : Config := { fixCfg with maxIssuesPerRun := 1 }

def fixCat : OwaspCategory :=
  { name := ofS "Injection", promptFile := ofS "A03_injection.md", maintainability := [],
    threatModel := [] }

def fixM : Mappings :=
  { severityMapping := [(ofS "error", ofS "critical"), (ofS "warning", ofS "medium")],
    codeqlToOwasp := [(ofS "r0", ofS "A03"), (ofS "r1", ofS "A03"), (ofS "r2", ofS "A03")],
    owaspCategories := [(ofS "A03", fixCat)],
    labelMapping := [(ofS "high", ofS "security-high")],
    maintainabilityTriggers := [] }

/-- Concrete finding fixture. -/
def fixFinding (rid fp : String) (line : Nat) (sev snip : String) : Finding :=
  { ruleId := ofS rid, ruleName := ofS "Bad thing", ruleHelp := [], message := ofS "msg",
    level := ofS "error", severity := ofS sev, filePath := ofS fp, startLine := line,
    endLine := line, startColumn := 1, endColumn := 2, codeSnippet := ofS snip,
    tool := ofS "CodeQL", toolVersion := ofS "2.0" }

def emptyTracker : TrackerState := { issues := [], log := [], nextNum := 1 }

def noFetch : Str → Str → Option Str := fun _ _ => none

def listAlwaysOk : GroupedFinding → Bool := fun _ => true

/-- A single occurrence fixture at line 10. -/
def fixOcc : Occurrence :=
  { startLine := 10, endLine := 10, startColumn := 1, endColumn := 2,
    codeSnippet := ofS "x", message := ofS "msg" }

/-- A grouped-finding fixture (one occurrence at line 10 of `a.js`). -/
def fixGroup : GroupedFinding :=
  { ruleId := ofS "r1", ruleName := ofS "Bad thing", ruleHelp := [],
    filePath := ofS "a.js", level := ofS "error", severity := ofS "high",
    tool := ofS "CodeQL", toolVersion := ofS "2.0", message := ofS "msg",
    occurrences := [fixOcc] }

/-- An open sentinel-labelled issue whose body carries the `r1`/`a.js`
markers and a `Lines 10` occurrence marker. -/
def fixSweepIssue : Issue :=
  { number := 7, title := ofS "t",
    body := ofS "| **CodeQL Rule** | `r1` |\n| **File** | `a.js` |\n\n#### Lines 10\n",
    labels := [ofS "codeql-finding"], state := ofS "open", assignees := [] }

def fixSweepState : TrackerState := { issues := [fixSweepIssue], log := [], nextNum := 8 }

/-- Snippet-backfill oracle fixture. -/
def fixExtract : Str → Nat → Nat → Str := fun _ _ _ => ofS "snippet"

def fixRegion (line : Nat) : SarifRegion :=
  { startLine := some line, endLine := some line, startColumn := some 1,
    endColumn := some 2, snippetText := some (ofS "snip") }

def fixPhys (line : Nat) : SarifPhysicalLocation :=
  { artifactUri := some (ofS "a.js"), region := some (fixRegion line) }

def fixLocation (line : Nat) : SarifLocation :=
  { physicalLocation := some (fixPhys line) }

/-- A SARIF result fixture at line `line` of `a.js` with the given level. -/
def fixSarifResult (rid : String) (line : Nat) (level : String) : SarifResult :=
  { ruleId := ofS rid, messageText := some (ofS "msg"), level := some (ofS level),
    locations := [fixLocation line] }

def fixDriver : SarifDriver :=
  { name := some (ofS "CodeQL"), semanticVersion := some (ofS "2.0"), version := none,
    rules := [] }

def fixRun (results : List SarifResult) : SarifRun :=
  { driver := some fixDriver, results := results }

/-- A one-run SARIF fixture from a list of results. -/
def fixSarif (results : List SarifResult) : Sarif := { runs := [fixRun results] }

/-- A low-severity finding (filtered out under the `high` threshold). -/
def lowFinding : Finding := fixFinding "r0" "c.js" 5 "low" "y"

/-- An open tracked item for `lowFinding`'s rule and file. -/
def lowIssue : Issue :=
  { number := 3, title := ofS "t",
    body := ofS "| **CodeQL Rule** | `r0` |\n| **File** | `c.js` |\n\n#### Lines 5\n",
    labels := [ofS "codeql-finding"], state := ofS "open", assignees := [] }

def lowState : TrackerState := { issues := [lowIssue], log := [], nextNum := 4 }

/-- Two actionable high-severity findings on distinct rules and files. -/
def hiFindingA : Finding := fixFinding "r1" "a.js" 10 "high" "x"

def hiFindingB : Finding := fixFinding "r2" "b.js" 20 "high" "x"

/-- A second grouped-finding fixture on a distinct rule and file. -/
def fixGroup2 : GroupedFinding :=
  { fixGroup with ruleId := ofS "r2", filePath := ofS "b.js" }

/-- A concrete prompt set (all remote fetches missed, category data from the
`A03` fixture). -/
def fixPrompts : Prompts :=
  { owaspKey := ofS "A03", owaspCategory := ofS "Injection",
    owaspFile := ofS "A03_injection.md", owaspPrompts := [],
    maintainabilityPrompts := [], threatModelPrompts := [] }

/-- A grouped finding whose oversized rule name pushes the assembled body past
`MAX_BODY_LENGTH`, so the size cut falls inside the name — before every
backtick marker of the metadata table. -/
def hugeGroup : GroupedFinding := { fixGroup with ruleName := List.replicate 70001 'a' }

/-- Whether a rendered body is safe from the auto-close sweep under a key set:
its markers fail to parse, or at least one parsed line key is live. -/
def bodySweepSafe (keys : List Str) (b : Str) : Bool :=
  match parseCloseInfo b with
  | none => true
  | some info => info.2.2.any (fun line => decide (vulnKey info.1 info.2.1 line ∈ keys))

/-- A tracker state holds an open sentinel-labelled issue with the given
body. -/
def hasWitness (st : TrackerState) (b : Str) : Prop :=
  ∃ i ∈ st.issues, i.state = ofS "open" ∧ ofS "codeql-finding" ∈ i.labels ∧ i.body = b

/-- A finding whose code snippet spells out another finding's backtick
markers, so its rendered body cross-matches that finding's dedup lookup. -/
def snipFinding : Finding := fixFinding "r1" "a.js" 10 "high" "`r2` `b.js`"

/-- The cross-matching report: `snipFinding`'s body carries `r2`/`b.js`
markers inside its code fence. -/
def crossFs : List Finding := [snipFinding, hiFindingB]

/-! ## Theorems -/

theorem isPre_iff (n h : Str) : isPre n h = true ↔ ∃ s, h = n ++ s := by
  induction n generalizing h with
  | nil => simp [isPre]
  | cons a as ih =>
    cases h with
    | nil => simp [isPre]
    | cons b bs =>
      simp only [isPre, Bool.and_eq_true, decide_eq_true_eq, ih, List.cons_append]
      constructor
      · rintro ⟨rfl, s, rfl⟩
        exact ⟨s, rfl⟩
      · rintro ⟨s, hs⟩
        obtain ⟨hb, ht⟩ := List.cons.inj hs
        exact ⟨hb.symm, s, ht⟩

theorem containsSub_iff (h n : Str) :
    containsSub h n = true ↔ ∃ p s, h = p ++ n ++ s := by
  induction h with
  | nil =>
    simp only [containsSub, List.isEmpty_iff]
    constructor
    · rintro rfl; exact ⟨[], [], rfl⟩
    · rintro ⟨p, s, hp⟩
      rcases List.append_eq_nil.mp ((List.append_eq_nil).mp hp.symm).1 with ⟨_, h2⟩
      exact h2
  | cons a t ih =>
    simp only [containsSub, Bool.or_eq_true, isPre_iff, ih]
    constructor
    · rintro (⟨s, hs⟩ | ⟨p, s, hs⟩)
      · exact ⟨[], s, by simpa using hs⟩
      · exact ⟨a :: p, s, by simp [hs]⟩
    · rintro ⟨p, s, hs⟩
      cases p with
      | nil => exact Or.inl ⟨s, by simpa using hs⟩
      | cons x xs =>
        right
        refine ⟨xs, s, ?_⟩
        rw [List.cons_append, List.cons_append] at hs
        exact (List.cons.inj hs).2

/-- A substring occurrence only uses characters of the haystack. -/
theorem mem_of_containsSub {h n : Str} (hc : containsSub h n = true)
    {c : Char} (hm : c ∈ n) : c ∈ h := by
  rcases (containsSub_iff h n).mp hc with ⟨p, s, rfl⟩
  simp [hm]

theorem containsSub_append_left {h n : Str} (hc : containsSub h n = true) (h' : Str) :
    containsSub (h ++ h') n = true := by
  rcases (containsSub_iff h n).mp hc with ⟨p, s, rfl⟩
  exact (containsSub_iff _ _).mpr ⟨p, s ++ h', by simp⟩

theorem containsSub_append_right {h n : Str} (hc : containsSub h n = true) (h' : Str) :
    containsSub (h' ++ h) n = true := by
  rcases (containsSub_iff h n).mp hc with ⟨p, s, rfl⟩
  exact (containsSub_iff _ _).mpr ⟨h' ++ p, s, by simp⟩

theorem containsSub_of_eq_append {h p n s : Str} (he : h = p ++ n ++ s) :
    containsSub h n = true :=
  (containsSub_iff h n).mpr ⟨p, s, he⟩

theorem dedupFirstF_eq : ∀ (f1 : Nat) (l : List Str) (f2 : Nat), l.length ≤ f1 →
    l.length ≤ f2 → dedupFirstF f1 l = dedupFirstF f2 l := by
  intro f1
  induction f1 with
  | zero =>
    intro l f2 h1 _
    rw [Nat.le_zero, List.length_eq_zero] at h1
    subst h1
    cases f2 <;> rfl
  | succ n ih =>
    intro l f2 h1 h2
    cases l with
    | nil => cases f2 <;> rfl
    | cons k t =>
      cases f2 with
      | zero => exact absurd h2 (by simp)
      | succ m =>
        have hfil : (t.filter (fun x => decide (x ≠ k))).length ≤ t.length :=
          List.length_filter_le _ _
        have ht1 : t.length ≤ n := by simpa using h1
        have ht2 : t.length ≤ m := by simpa using h2
        show k :: dedupFirstF n _ = k :: dedupFirstF m _
        rw [ih _ m (le_trans hfil ht1) (le_trans hfil ht2)]

theorem dedupFirst_cons (k : Str) (t : List Str) :
    dedupFirst (k :: t) = k :: dedupFirst (t.filter (fun x => decide (x ≠ k))) := by
  show dedupFirstF (t.length + 1) (k :: t) = _
  show k :: dedupFirstF t.length (t.filter fun x => decide (x ≠ k)) = _
  rw [dedupFirstF_eq t.length _ _ (List.length_filter_le _ _) (le_refl _)]
  rfl

theorem dedupFirst_mem_aux : ∀ (fuel : Nat) (l : List Str), l.length ≤ fuel →
    ∀ x : Str, x ∈ dedupFirst l ↔ x ∈ l := by
  intro fuel
  induction fuel with
  | zero =>
    intro l hl x
    rw [Nat.le_zero, List.length_eq_zero] at hl
    subst hl
    simp [dedupFirst, dedupFirstF]
  | succ n ih =>
    intro l hl x
    cases l with
    | nil => simp [dedupFirst, dedupFirstF]
    | cons k t =>
      have ht : t.length ≤ n := by simpa using hl
      have hfil : (t.filter (fun y => decide (y ≠ k))).length ≤ n :=
        le_trans (List.length_filter_le _ _) ht
      rw [dedupFirst_cons]
      constructor
      · intro hx
        rcases List.mem_cons.mp hx with rfl | hx'
        · exact List.mem_cons_self _ _
        · have hm := (ih _ hfil x).mp hx'
          exact List.mem_cons_of_mem _ (List.mem_of_mem_filter hm)
      · intro hx
        rcases List.mem_cons.mp hx with rfl | hx'
        · exact List.mem_cons_self _ _
        · by_cases hxk : x = k
          · exact hxk ▸ List.mem_cons_self _ _
          · refine List.mem_cons_of_mem _ ((ih _ hfil x).mpr ?_)
            exact List.mem_filter.mpr ⟨hx', by simp [hxk]⟩

theorem dedupFirst_mem (l : List Str) (x : Str) : x ∈ dedupFirst l ↔ x ∈ l :=
  dedupFirst_mem_aux l.length l (le_refl _) x

theorem dedupFirst_nodup_aux : ∀ (fuel : Nat) (l : List Str), l.length ≤ fuel →
    (dedupFirst l).Nodup := by
  intro fuel
  induction fuel with
  | zero =>
    intro l hl
    rw [Nat.le_zero, List.length_eq_zero] at hl
    subst hl
    simp [dedupFirst, dedupFirstF]
  | succ n ih =>
    intro l hl
    cases l with
    | nil => simp [dedupFirst, dedupFirstF]
    | cons k t =>
      have ht : t.length ≤ n := by simpa using hl
      have hfil : (t.filter (fun y => decide (y ≠ k))).length ≤ n :=
        le_trans (List.length_filter_le _ _) ht
      rw [dedupFirst_cons]
      refine List.nodup_cons.mpr ⟨?_, ih _ hfil⟩
      rw [dedupFirst_mem]
      simp

theorem dedupFirst_nodup (l : List Str) : (dedupFirst l).Nodup :=
  dedupFirst_nodup_aux l.length l (le_refl _)

/-- Effect of the grouping loop body when the key is already present
(the first — and, under key-uniqueness, only — entry gets the new
occurrence appended). -/
theorem insertFinding_of_mem : ∀ (acc : List (Str × GroupedFinding)) (f : Finding),
    (acc.map Prod.fst).Nodup → strKey f ∈ acc.map Prod.fst →
    insertFinding acc f = acc.map (fun p =>
      if p.1 = strKey f then
        (p.1, { p.2 with occurrences := p.2.occurrences ++ [toOcc f] })
      else p) := by
  intro acc
  induction acc with
  | nil => intro f _ hmem; simp at hmem
  | cons hd t ih =>
    intro f hnd hmem
    obtain ⟨k, g⟩ := hd
    have hnd2 : (k :: t.map Prod.fst).Nodup := by
      rw [List.map_cons] at hnd
      exact hnd
    simp only [insertFinding, List.map_cons]
    by_cases hk : k = strKey f
    · rw [if_pos hk]
      have hnot : ∀ p ∈ t, ¬p.1 = strKey f := by
        intro p hp he
        have h1 : k ∉ t.map Prod.fst := (List.nodup_cons.mp hnd2).1
        apply h1
        rw [hk, ← he]
        exact List.mem_map_of_mem Prod.fst hp
      have hmap : t.map (fun p => if p.1 = strKey f then
          (p.1, { p.2 with occurrences := p.2.occurrences ++ [toOcc f] }) else p) = t := by
        have : t.map (fun p => if p.1 = strKey f then
            (p.1, { p.2 with occurrences := p.2.occurrences ++ [toOcc f] }) else p) = t.map id := by
          apply List.map_congr_left
          intro p hp
          simp [hnot p hp]
        simpa using this
      simp [hk, hmap]
    · rw [if_neg hk]
      have hmem' : strKey f ∈ t.map Prod.fst := by
        rw [List.map_cons] at hmem
        rcases List.mem_cons.mp hmem with he | h
        · exact absurd he.symm hk
        · exact h
      have hnd' : (t.map Prod.fst).Nodup := (List.nodup_cons.mp hnd2).2
      rw [ih f hnd' hmem']
      simp [hk]

/-- Effect of the grouping loop body when the key is new (a fresh group is
appended at the end, preserving first-seen order). -/
theorem insertFinding_of_notMem : ∀ (acc : List (Str × GroupedFinding)) (f : Finding),
    strKey f ∉ acc.map Prod.fst →
    insertFinding acc f = acc ++ [(strKey f, { initGroup f with occurrences := [toOcc f] })] := by
  intro acc
  induction acc with
  | nil => intro f _; rfl
  | cons hd t ih =>
    intro f hmem
    obtain ⟨k, g⟩ := hd
    have hk : ¬k = strKey f := by
      intro he
      apply hmem
      rw [List.map_cons]
      exact List.mem_cons.mpr (Or.inl he.symm)
    have hmem' : strKey f ∉ t.map Prod.fst := by
      intro h
      apply hmem
      rw [List.map_cons]
      exact List.mem_cons_of_mem _ h
    simp only [insertFinding]
    rw [if_neg hk, ih f hmem']
    simp

theorem fst_insertFinding (acc : List (Str × GroupedFinding)) (f : Finding) :
    (insertFinding acc f).map Prod.fst =
      if strKey f ∈ acc.map Prod.fst then acc.map Prod.fst
      else acc.map Prod.fst ++ [strKey f] := by
  induction acc with
  | nil => simp [insertFinding]
  | cons hd t ih =>
    obtain ⟨k, g⟩ := hd
    simp only [insertFinding]
    by_cases hk : k = strKey f
    · rw [if_pos hk]
      have hmem : strKey f ∈ ((k, g) :: t).map Prod.fst := by
        rw [List.map_cons]
        exact List.mem_cons.mpr (Or.inl hk.symm)
      rw [if_pos hmem]
      simp
    · rw [if_neg hk]
      by_cases hmem : strKey f ∈ t.map Prod.fst
      · have hmem2 : strKey f ∈ ((k, g) :: t).map Prod.fst := by
          rw [List.map_cons]
          exact List.mem_cons_of_mem _ hmem
        rw [if_pos hmem2]
        simp [ih, hmem]
      · have hmem2 : strKey f ∉ ((k, g) :: t).map Prod.fst := by
          rw [List.map_cons]
          intro h
          rcases List.mem_cons.mp h with he | h2
          · exact hk he.symm
          · exact hmem h2
        rw [if_neg hmem2]
        simp [ih, hmem]

theorem nodup_fst_insertFinding (acc : List (Str × GroupedFinding)) (f : Finding)
    (hnd : (acc.map Prod.fst).Nodup) : ((insertFinding acc f).map Prod.fst).Nodup := by
  rw [fst_insertFinding]
  by_cases hmem : strKey f ∈ acc.map Prod.fst
  · simpa [hmem] using hnd
  · rw [if_neg hmem]
    refine List.Nodup.append hnd (List.nodup_singleton _) ?_
    intro a ha hb
    rw [List.mem_singleton] at hb
    exact hmem (hb ▸ ha)

theorem groupFor_cons_ne (f : Finding) (fs : List Finding) (k : Str)
    (h : strKey f ≠ k) : groupFor (f :: fs) k = groupFor fs k := by
  simp [groupFor, List.find?_cons, List.filter_cons, h]

theorem filter_map_comm {α β : Type} (l : List α) (f : α → β) (p : β → Bool) :
    (l.map f).filter p = (l.filter (fun x => p (f x))).map f := by
  induction l with
  | nil => rfl
  | cons a t ih =>
    simp only [List.map_cons, List.filter_cons]
    by_cases hp : p (f a) <;> simp [hp, ih]

theorem foldl_insertFinding_spec : ∀ (fs : List Finding) (acc : List (Str × GroupedFinding)),
    (acc.map Prod.fst).Nodup →
    fs.foldl insertFinding acc = extendGroups fs acc ++ newGroups fs (acc.map Prod.fst) := by
  intro fs
  induction fs with
  | nil =>
    intro acc _
    simp [extendGroups, newGroups, dedupFirst, dedupFirstF]
  | cons f fs' ih =>
    intro acc hnd
    show fs'.foldl insertFinding (insertFinding acc f) = _
    rw [ih (insertFinding acc f) (nodup_fst_insertFinding acc f hnd)]
    by_cases hmem : strKey f ∈ acc.map Prod.fst
    · -- existing key: the matching accumulator entry absorbs the occurrence
      rw [insertFinding_of_mem acc f hnd hmem]
      have hfst : ((acc.map (fun p => if p.1 = strKey f then
          (p.1, { p.2 with occurrences := p.2.occurrences ++ [toOcc f] }) else p)).map Prod.fst)
          = acc.map Prod.fst := by
        rw [List.map_map]
        apply List.map_congr_left
        intro p _
        by_cases hp : p.1 = strKey f <;> simp [hp]
      rw [hfst]
      congr 1
      · -- extendGroups side
        rw [extendGroups, extendGroups, List.map_map]
        apply List.map_congr_left
        intro p _
        by_cases hp : p.1 = strKey f
        · simp only [Function.comp_apply, if_pos hp]
          rw [List.filter_cons, if_pos (by simp [hp])]
          simp [List.append_assoc]
        · simp only [Function.comp_apply, if_neg hp]
          rw [List.filter_cons, if_neg (by simp [Ne.symm hp])]
      · -- newGroups side
        rw [newGroups, newGroups]
        rw [List.filter_cons, if_neg (by simp [hmem])]
        apply List.map_congr_left
        intro k hk
        have hkne : strKey f ≠ k := by
          intro he
          have hk2 : k ∈ (fs'.filter
              (fun f' => decide (strKey f' ∉ acc.map Prod.fst))).map strKey :=
            (dedupFirst_mem _ _).mp hk
          obtain ⟨f', hf', hfk⟩ := List.mem_map.mp hk2
          have hnotin := (List.mem_filter.mp hf').2
          simp only [decide_eq_true_eq] at hnotin
          apply hnotin
          rw [hfk, ← he]
          exact hmem
        rw [groupFor_cons_ne f fs' k hkne]
    · -- new key: a fresh singleton group is appended at the end
      rw [insertFinding_of_notMem acc f hmem]
      have hne : ∀ p ∈ acc, p.1 ≠ strKey f := by
        intro p hp he
        exact hmem (he ▸ List.mem_map_of_mem Prod.fst hp)
      have hext : extendGroups (f :: fs') acc = extendGroups fs' acc := by
        apply List.map_congr_left
        intro p hp
        rw [List.filter_cons, if_neg (by simp [Ne.symm (hne p hp)])]
      have hsplit : extendGroups fs' (acc ++
            [(strKey f, { initGroup f with occurrences := [toOcc f] })]) =
          extendGroups fs' acc ++ [(strKey f, consGroup f fs')] := by
        rw [extendGroups, List.map_append, extendGroups]
        simp [consGroup]
      have hkeys : (acc ++ [(strKey f, { initGroup f with occurrences := [toOcc f] })]).map
          Prod.fst = acc.map Prod.fst ++ [strKey f] := by
        simp
      have hhead : groupFor (f :: fs') (strKey f) = consGroup f fs' := by
        rw [groupFor]
        simp [consGroup, List.filter_cons]
      have hkeylist : (((fs'.filter (fun f' => decide (strKey f' ∉ acc.map Prod.fst))).map
            strKey).filter (fun x => decide (x ≠ strKey f))) =
          (fs'.filter (fun f' => decide (strKey f' ∉ acc.map Prod.fst ++ [strKey f]))).map
            strKey := by
        rw [filter_map_comm, List.filter_filter]
        congr 1
        apply List.filter_congr
        intro f' _
        by_cases h1 : strKey f' ∈ acc.map Prod.fst
        · simp [h1]
        · by_cases h2 : strKey f' = strKey f <;> simp [h1, h2]
      have hnew : newGroups (f :: fs') (acc.map Prod.fst) =
          (strKey f, consGroup f fs') :: newGroups fs' (acc.map Prod.fst ++ [strKey f]) := by
        rw [newGroups]
        rw [List.filter_cons, if_pos (by simp [hmem])]
        rw [List.map_cons, dedupFirst_cons, List.map_cons]
        congr 1
        · rw [hhead]
        · rw [hkeylist, newGroups]
          apply List.map_congr_left
          intro k hk
          have hkne : strKey f ≠ k := by
            intro he
            have hk2 := (dedupFirst_mem _ _).mp hk
            obtain ⟨f', hf', hfk⟩ := List.mem_map.mp hk2
            have hnotin := (List.mem_filter.mp hf').2
            simp only [decide_eq_true_eq] at hnotin
            apply hnotin
            rw [hfk, ← he]
            simp
          rw [groupFor_cons_ne f fs' k hkne]
      rw [hext, hsplit, hkeys, hnew]
      rw [List.append_assoc]
      rfl

/-- The grouper, characterized: one group per distinct key string in
first-seen order; each group carries the metadata of the first finding with
its key and the occurrences of all findings with its key in input order. -/
theorem groupFindings_characterization (fs : List Finding) :
    groupFindingsByRuleAndFile fs = (dedupFirst (fs.map strKey)).map (groupFor fs) := by
  rw [groupFindingsByRuleAndFile, foldl_insertFinding_spec fs [] (by simp)]
  rw [extendGroups, newGroups]
  simp [List.map_map, Function.comp]

theorem length_filter_split {α : Type} (l : List α) (p : α → Bool) :
    (l.filter p).length + (l.filter (fun a => !p a)).length = l.length := by
  induction l with
  | nil => rfl
  | cons a t ih =>
    by_cases hp : p a <;> simp [List.filter_cons, hp, ← ih] <;> omega

theorem sum_filter_lengths : ∀ (K : List Str) (fs : List Finding), K.Nodup →
    (∀ f ∈ fs, strKey f ∈ K) →
    (K.map (fun k => (fs.filter (fun f => decide (strKey f = k))).length)).sum = fs.length := by
  intro K
  induction K with
  | nil =>
    intro fs _ hall
    cases fs with
    | nil => rfl
    | cons f t => exact absurd (hall f (List.mem_cons_self f t)) (List.not_mem_nil _)
  | cons k K' ih =>
    intro fs hnd hall
    have hnd' := (List.nodup_cons.mp hnd).2
    have hk : k ∉ K' := (List.nodup_cons.mp hnd).1
    have hterm : ∀ k' ∈ K', (fs.filter (fun f => decide (strKey f = k'))).length =
        ((fs.filter (fun f => !decide (strKey f = k))).filter
          (fun f => decide (strKey f = k'))).length := by
      intro k' hk'
      rw [List.filter_filter]
      congr 1
      apply List.filter_congr
      intro f _
      by_cases he : strKey f = k'
      · have hne : ¬strKey f = k := fun hkk => hk (hkk ▸ he ▸ hk')
        simp [he, hne]
        exact fun h => hne (he.trans h)
      · simp [he]
    have hall' : ∀ f ∈ fs.filter (fun f => !decide (strKey f = k)), strKey f ∈ K' := by
      intro f hf
      have hm := List.mem_filter.mp hf
      have h2 : ¬strKey f = k := by simpa using hm.2
      rcases List.mem_cons.mp (hall f hm.1) with he | h
      · exact absurd he h2
      · exact h
    rw [List.map_cons, List.sum_cons]
    rw [List.map_congr_left hterm]
    rw [ih _ hnd' hall']
    exact length_filter_split fs _

theorem mem_strKey_of_mem_dedup (fs : List Finding) (k : Str)
    (hk : k ∈ dedupFirst (fs.map strKey)) : ∃ f ∈ fs, strKey f = k := by
  have := (dedupFirst_mem _ _).mp hk
  exact List.mem_map.mp this

theorem groupFor_occurrences (fs : List Finding) (k : Str)
    (hk : ∃ f ∈ fs, strKey f = k) :
    (groupFor fs k).occurrences = (fs.filter (fun f' => decide (strKey f' = k))).map toOcc := by
  obtain ⟨f, hf, hfk⟩ := hk
  have : (fs.find? (fun f' => decide (strKey f' = k))).isSome := by
    rw [List.find?_isSome]
    exact ⟨f, hf, by simp [hfk]⟩
  rw [groupFor]
  obtain ⟨f0, hf0⟩ := Option.isSome_iff_exists.mp this
  rw [hf0]

/-- Conservation: the grouper neither drops nor duplicates occurrences. -/
theorem groupFindings_length_sum (fs : List Finding) :
    ((groupFindingsByRuleAndFile fs).map (fun g => g.occurrences.length)).sum = fs.length := by
  rw [groupFindings_characterization, List.map_map]
  have hmap : ((dedupFirst (fs.map strKey)).map ((fun g => g.occurrences.length) ∘ groupFor fs))
      = (dedupFirst (fs.map strKey)).map
        (fun k => (fs.filter (fun f => decide (strKey f = k))).length) := by
    apply List.map_congr_left
    intro k hk
    have := groupFor_occurrences fs k (mem_strKey_of_mem_dedup fs k hk)
    simp [Function.comp_apply, this]
  rw [hmap]
  apply sum_filter_lengths _ _ (dedupFirst_nodup _)
  intro f hf
  rw [dedupFirst_mem]
  exact List.mem_map_of_mem strKey hf


/-! ## Bridge lemmas for the filter stage -/

theorem jsIndexOf_eq_orderIdx (l : List Str) (s : Str) :
    jsIndexOf l s = (match orderIdx l s with
      | none => (-1 : Int)
      | some i => (i : Int)) := by
  induction l with
  | nil => rfl
  | cons a t ih =>
    by_cases ha : a = s
    · simp [jsIndexOf, orderIdx, ha]
    · simp only [jsIndexOf, orderIdx, if_neg ha, ih]
      cases h : orderIdx t s with
      | none => simp
      | some i =>
        have : ((i : Int)) ≠ -1 := by omega
        simp [this]
        try omega

theorem jsIndexOf_of_orderIdx_none (l : List Str) (s : Str)
    (h : orderIdx l s = none) : jsIndexOf l s = -1 := by
  rw [jsIndexOf_eq_orderIdx, h]

theorem jsIndexOf_of_orderIdx_some (l : List Str) (s : Str) (i : Nat)
    (h : orderIdx l s = some i) : jsIndexOf l s = (i : Int) := by
  rw [jsIndexOf_eq_orderIdx, h]

theorem orderIdx_isSome_iff_mem (l : List Str) (s : Str) :
    (orderIdx l s).isSome ↔ s ∈ l := by
  induction l with
  | nil => simp [orderIdx]
  | cons a t ih =>
    by_cases ha : a = s
    · simp [orderIdx, ha]
    · simp [orderIdx, ha, ih, Ne.symm ha]

theorem meetsSeverity_iff_spec (cfg : Config) (severity : Str)
    (hthr : cfg.severityThreshold ∈ severityLevels) :
    meetsSeverityThreshold cfg severity = true ↔
      specSeverityMeets severity cfg.severityThreshold := by
  obtain ⟨j, hj⟩ := Option.isSome_iff_exists.mp
    ((orderIdx_isSome_iff_mem severityLevels cfg.severityThreshold).mpr hthr)
  unfold meetsSeverityThreshold specSeverityMeets
  rw [decide_eq_true_eq, jsIndexOf_of_orderIdx_some _ _ j hj]
  cases hs : orderIdx severityLevels severity with
  | none =>
    rw [jsIndexOf_of_orderIdx_none _ _ hs]
    constructor
    · intro h
      exfalso
      have hj0 : (0 : Int) ≤ (j : Int) := Int.natCast_nonneg j
      simp only [ge_iff_le] at h
      omega
    · rintro ⟨i, j', hi, _, _⟩
      cases hi
  | some i =>
    rw [jsIndexOf_of_orderIdx_some _ _ i hs]
    constructor
    · intro h
      refine ⟨i, j, rfl, hj, ?_⟩
      simp only [ge_iff_le] at h
      exact_mod_cast h
    · rintro ⟨i', j', hi', hj', hij⟩
      obtain rfl := Option.some.inj hi'
      rw [hj] at hj'
      obtain rfl := Option.some.inj hj'
      simp only [ge_iff_le]
      exact_mod_cast hij

theorem shouldExclude_iff_spec (cfg : Config) (filePath : Str) :
    shouldExcludePath cfg filePath = true ↔
      specPathExcluded cfg.excludedPaths filePath := by
  unfold shouldExcludePath specPathExcluded
  rw [List.any_eq_true]
  constructor
  · rintro ⟨e, he, hc⟩
    exact ⟨e, he, (containsSub_iff _ _).mp hc⟩
  · rintro ⟨e, he, p', sfx, hp⟩
    exact ⟨e, he, (containsSub_iff _ _).mpr ⟨p', sfx, hp⟩⟩

theorem countCU_append (l l' : List Mut) : countCU (l ++ l') = countCU l + countCU l' := by
  simp [countCU, List.filter_append]

theorem countCU_createOrUpdate (cfg : Config) (st : TrackerState)
    (listResult : Option (List Issue)) (g : GroupedFinding) (issueBody : Str)
    (labels : List Str) :
    countCU (createOrUpdateIssue cfg st listResult g issueBody labels).1.log =
      countCU st.log + 1 := by
  unfold createOrUpdateIssue
  cases h : findExistingIssue listResult g <;>
    simp [countCU_append, countCU]

/-! ## Claim C4 -/

/-- C4 (amended): grouping partitions by the concatenated key string
`ruleId:filePath`: the groups are exactly the distinct key strings in
first-seen input order, each carrying the metadata of the first finding with
its key and the occurrences of all findings with its key in input order, and
no occurrence is dropped or duplicated (the occurrence counts sum to the
number of findings). -/
theorem c4_grouping_partition_by_key_string (fs : List Finding) :
    groupFindingsByRuleAndFile fs = (dedupFirst (fs.map strKey)).map (groupFor fs) ∧
    ((groupFindingsByRuleAndFile fs).map (fun g => g.occurrences.length)).sum = fs.length :=
  ⟨groupFindings_characterization fs, groupFindings_length_sum fs⟩

/-- C4 counterexample: two findings with distinct (ruleId, filePath) pairs
whose concatenated key strings coincide (a colon inside the rule id) are
merged into one group, so the group keys are not the distinct pairs present
in the input. -/
theorem c4_colon_collision_counterexample :
    (fixFinding "a:b" "c" 1 "high" "x").ruleId ≠ (fixFinding "a" "b:c" 2 "high" "x").ruleId ∧
    (groupFindingsByRuleAndFile
      [fixFinding "a:b" "c" 1 "high" "x", fixFinding "a" "b:c" 2 "high" "x"]).length = 1 := by
  decide

/-! ## Claim C2 -/

theorem autoClose_issues_eq (keys : List Str) (st : TrackerState) :
    (autoCloseResolvedIssues keys st).2.issues =
      st.issues.map (fun i => if sweepCloses keys i then closeIssue i else i) := rfl

theorem closeIssue_ne (issue : Issue) (hopen : issue.state = ofS "open") :
    closeIssue issue ≠ issue := by
  intro he
  have hs : (closeIssue issue).state = issue.state := congrArg Issue.state he
  have hcl : (closeIssue issue).state = ofS "closed" := rfl
  rw [hcl, hopen] at hs
  exact absurd hs (by decide)

/-- C2: in the auto-close sweep, an open sentinel-labelled item with the
manual-override label is left unchanged; an item whose body yields no
parsable markers is left unchanged; otherwise the item is transitioned to
closed exactly when none of the vulnerability keys formed from its parsed
body markers are in the current run's key set, and it is left open (and
unchanged) when at least one parsed key is live. -/
theorem c2_autoclose_per_item (keys : List Str) (st : TrackerState) (n : Nat) (issue : Issue)
    (hn : st.issues.get? n = some issue)
    (hopen : issue.state = ofS "open")
    (hlab : ofS "codeql-finding" ∈ issue.labels) :
    (ofS "false-positive" ∈ issue.labels →
      (autoCloseResolvedIssues keys st).2.issues.get? n = some issue) ∧
    (parseCloseInfo issue.body = none →
      (autoCloseResolvedIssues keys st).2.issues.get? n = some issue) ∧
    (∀ r f ls, ofS "false-positive" ∉ issue.labels →
      parseCloseInfo issue.body = some (r, f, ls) →
      (((autoCloseResolvedIssues keys st).2.issues.get? n = some (closeIssue issue)) ↔
        ∀ line ∈ ls, vulnKey r f line ∉ keys) ∧
      ((∃ line ∈ ls, vulnKey r f line ∈ keys) →
        (autoCloseResolvedIssues keys st).2.issues.get? n = some issue)) := by
  have hres : (autoCloseResolvedIssues keys st).2.issues.get? n =
      some (if sweepCloses keys issue then closeIssue issue else issue) := by
    rw [autoClose_issues_eq, List.get?_map, hn]
    rfl
  refine ⟨?_, ?_, ?_⟩
  · intro hfp
    have hsc : sweepCloses keys issue = false := by
      simp [sweepCloses, hfp]
    rw [hres, hsc]
    simp
  · intro hparse
    have hsc : sweepCloses keys issue = false := by
      simp [sweepCloses, hparse]
    rw [hres, hsc]
    simp
  · intro r f ls hfp hparse
    have hsc : sweepCloses keys issue =
        ls.all (fun line => !decide (vulnKey r f line ∈ keys)) := by
      simp [sweepCloses, hopen, hlab, hfp, hparse]
    by_cases hall : ls.all (fun line => !decide (vulnKey r f line ∈ keys)) = true
    · have hresT : (autoCloseResolvedIssues keys st).2.issues.get? n =
          some (closeIssue issue) := by
        rw [hres, hsc, hall]
        simp
      constructor
      · constructor
        · intro _ line hline
          simpa using List.all_eq_true.mp hall line hline
        · intro _
          exact hresT
      · rintro ⟨line, hline, hkeys⟩
        have hh := List.all_eq_true.mp hall line hline
        simp at hh
        exact absurd hkeys hh
    · have hsc' : sweepCloses keys issue = false := by
        rw [hsc]
        cases hx : ls.all (fun line => !decide (vulnKey r f line ∈ keys)) with
        | false => rfl
        | true => exact absurd hx hall
      have hresF : (autoCloseResolvedIssues keys st).2.issues.get? n = some issue := by
        rw [hres, hsc']
        simp
      constructor
      · constructor
        · intro he
          rw [hresF] at he
          exact absurd (Option.some.inj he).symm (closeIssue_ne issue hopen)
        · intro hdead
          exact absurd (List.all_eq_true.mpr
            (fun line hline => by simpa using hdead line hline)) hall
      · intro _
        exact hresF

/-- C2 witness: a concrete open sentinel item with parsable markers and a
live line key stays open and unchanged through the sweep. -/
theorem c2_witness :
    (autoCloseResolvedIssues [vulnKey (ofS "r1") (ofS "a.js") (ofS "10")]
      fixSweepState).2.issues.get? 0 = some fixSweepIssue :=
  ((c2_autoclose_per_item [vulnKey (ofS "r1") (ofS "a.js") (ofS "10")] fixSweepState 0
      fixSweepIssue (by decide) (by decide) (by decide)).2.2
    (ofS "r1") (ofS "a.js") [ofS "10"] (by decide) (by decide)).2
    ⟨ofS "10", by decide, by decide⟩

/-! ## Claim C10 -/

theorem matchingOpen_append (issues : List Issue) (new : Issue) (g : GroupedFinding)
    (hopen : new.state = ofS "open") (hlab : ofS "codeql-finding" ∈ new.labels)
    (hbr : containsSub new.body (tick g.ruleId) = true)
    (hbf : containsSub new.body (tick g.filePath) = true) :
    matchingOpen (issues ++ [new]) g = matchingOpen issues g ++ [new] := by
  simp [matchingOpen, List.filter_append, List.filter_cons, hopen, hlab, hbr, hbf]

/-- C10: when the listing call of the dedup lookup fails (modelled by a
`none` listing result), `findExistingIssue` returns null, `createOrUpdateIssue`
takes the create path, and — when a matching open item already exists — a
second open matching item now exists, violating the at-most-one-open
invariant. -/
theorem c10_lookup_failure_creates_duplicate (cfg : Config) (st : TrackerState)
    (g : GroupedFinding) (issueBody : Str) (labels : List Str)
    (hmatch : 1 ≤ (matchingOpen st.issues g).length)
    (hbr : containsSub issueBody (tick g.ruleId) = true)
    (hbf : containsSub issueBody (tick g.filePath) = true)
    (hlab : ofS "codeql-finding" ∈ labels) :
    findExistingIssue none g = none ∧
    (createOrUpdateIssue cfg st none g issueBody labels).2 = IssueAction.created ∧
    2 ≤ (matchingOpen (createOrUpdateIssue cfg st none g issueBody labels).1.issues g).length := by
  refine ⟨rfl, rfl, ?_⟩
  have hiss : (createOrUpdateIssue cfg st none g issueBody labels).1.issues =
      st.issues ++ [createdIssue cfg st g issueBody labels] := rfl
  rw [hiss, matchingOpen_append st.issues _ g rfl hlab hbr hbf, List.length_append]
  simp only [List.length_singleton]
  omega

/-- C10 witness: concrete lookup failure over a state that already holds a
matching open item yields a created duplicate. -/
theorem c10_witness :
    2 ≤ (matchingOpen (createOrUpdateIssue fixCfg fixSweepState none fixGroup
      (tick (ofS "r1") ++ tick (ofS "a.js")) [ofS "codeql-finding"]).1.issues fixGroup).length :=
  (c10_lookup_failure_creates_duplicate fixCfg fixSweepState fixGroup
    (tick (ofS "r1") ++ tick (ofS "a.js")) [ofS "codeql-finding"]
    (by decide) (by decide) (by decide) (by decide)).2.2


/-! ## Claim C6 -/

/-- C6: with the cap not yet reached and a valid configured threshold, a
grouped finding reaches the create/update stage (the step emits exactly one
create/update mutation) precisely when it passes all three checks — severity
at or above the threshold under the fixed order low < medium < high <
critical, no configured exclusion substring in its file path, and a known
OWASP category for its rule; a rejected finding is attributed one reason by
the first failing check, is counted as skipped exactly once, leaves the
tracker untouched, and raises no error. -/
theorem c6_actionable_iff (cfg : Config) (m : Mappings) (fetch : Str → Str → Option Str)
    (total : Nat) (g : GroupedFinding) (pc : Nat) (keys : List Str) (results : RunResults)
    (st : TrackerState)
    (hcap : pc < cfg.maxIssuesPerRun)
    (hthr : cfg.severityThreshold ∈ severityLevels) :
    (rejectionReason cfg m g = none ↔
      (specSeverityMeets g.severity cfg.severityThreshold ∧
        ¬specPathExcluded cfg.excludedPaths g.filePath ∧
        (mapToOWASP m g.ruleId).isSome = true)) ∧
    (countCU (processGo cfg m fetch listAlwaysOk total [g] pc keys results st).2.2.log =
      countCU st.log + (if rejectionReason cfg m g = none then 1 else 0)) ∧
    (rejectionReason cfg m g ≠ none →
      (processGo cfg m fetch listAlwaysOk total [g] pc keys results st).1.skipped =
        results.skipped + 1 ∧
      (processGo cfg m fetch listAlwaysOk total [g] pc keys results st).2.2 = st) ∧
    (processGo cfg m fetch listAlwaysOk total [g] pc keys results st).1.errors =
      results.errors := by
  have hncap : ¬(pc ≥ cfg.maxIssuesPerRun) := by omega
  by_cases hsev : meetsSeverityThreshold cfg g.severity = true
  · by_cases hpath : shouldExcludePath cfg g.filePath = true
    · -- rejected by path exclusion
      have hrej : rejectionReason cfg m g = some RejectReason.excludedPath := by
        simp [rejectionReason, hsev, hpath]
      have hgo : processGo cfg m fetch listAlwaysOk total [g] pc keys results st =
          processGo cfg m fetch listAlwaysOk total [] pc keys
            { { results with bySeverity := incrCount results.bySeverity g.severity }
                with skipped := ({ results with
                  bySeverity := incrCount results.bySeverity g.severity }).skipped + 1 } st := by
        simp [processGo, hncap, hsev, hpath]
      rw [hgo]
      refine ⟨?_, ?_, ?_, rfl⟩
      · rw [hrej]
        simp only [false_iff, Option.some.injEq, reduceCtorEq]
        rintro ⟨_, hnp, _⟩
        exact hnp ((shouldExclude_iff_spec cfg g.filePath).mp hpath)
      · rw [hrej]
        simp [processGo]
      · intro _
        exact ⟨rfl, rfl⟩
    · by_cases how : (mapToOWASP m g.ruleId).isSome = true
      · -- actionable: reaches the create/update stage
        obtain ⟨ow, how'⟩ := Option.isSome_iff_exists.mp how
        have hrej : rejectionReason cfg m g = none := by
          simp [rejectionReason, hsev, hpath, how']
        have hgo : (processGo cfg m fetch listAlwaysOk total [g] pc keys results st).2.2 =
            (createOrUpdateIssue cfg st (some (openSentinelIssues st)) g
              (createIssueBody cfg g (promptsFor cfg m fetch ow g))
              (generateLabels m g (some ow) (maintFiles cfg m ow g))).1 := by
          simp [processGo, hncap, hsev, hpath, how', listAlwaysOk]
        have herr : (processGo cfg m fetch listAlwaysOk total [g] pc keys results st).1.errors =
            results.errors := by
          simp [processGo, hncap, hsev, hpath, how', listAlwaysOk]
          cases (createOrUpdateIssue cfg st (some (openSentinelIssues st)) g
              (createIssueBody cfg g (promptsFor cfg m fetch ow g))
              (generateLabels m g (some ow) (maintFiles cfg m ow g))).2 <;> simp [processGo]
        refine ⟨?_, ?_, ?_, herr⟩
        · rw [hrej]
          simp only [true_iff]
          refine ⟨(meetsSeverity_iff_spec cfg g.severity hthr).mp hsev, ?_, how⟩
          intro hspec
          exact hpath ((shouldExclude_iff_spec cfg g.filePath).mpr hspec)
        · rw [hrej, hgo]
          simp only [if_pos]
          rw [countCU_createOrUpdate]
        · intro hne
          exact absurd hrej hne
      · -- rejected by missing OWASP mapping
        have hmap : mapToOWASP m g.ruleId = none := by
          cases h : mapToOWASP m g.ruleId with
          | none => rfl
          | some v => exact absurd (by rw [h]; rfl) how
        have hrej : rejectionReason cfg m g = some RejectReason.noMapping := by
          simp [rejectionReason, hsev, hpath, hmap]
        have hgo : processGo cfg m fetch listAlwaysOk total [g] pc keys results st =
            processGo cfg m fetch listAlwaysOk total [] pc keys
              { { results with bySeverity := incrCount results.bySeverity g.severity }
                  with skipped := ({ results with
                    bySeverity := incrCount results.bySeverity g.severity }).skipped + 1 } st := by
          simp [processGo, hncap, hsev, hpath, hmap]
        rw [hgo]
        refine ⟨?_, ?_, ?_, rfl⟩
        · rw [hrej]
          simp only [false_iff, Option.some.injEq, reduceCtorEq]
          rintro ⟨_, _, hsome⟩
          rw [hmap] at hsome
          cases hsome
        · rw [hrej]
          simp [processGo]
        · intro _
          exact ⟨rfl, rfl⟩
  · -- rejected by severity threshold
    have hrej : rejectionReason cfg m g = some RejectReason.belowSeverity := by
      simp [rejectionReason, hsev]
    have hgo : processGo cfg m fetch listAlwaysOk total [g] pc keys results st =
        processGo cfg m fetch listAlwaysOk total [] pc keys
          { { results with bySeverity := incrCount results.bySeverity g.severity }
              with skipped := ({ results with
                bySeverity := incrCount results.bySeverity g.severity }).skipped + 1 } st := by
      simp [processGo, hncap, hsev]
    rw [hgo]
    refine ⟨?_, ?_, ?_, rfl⟩
    · rw [hrej]
      simp only [false_iff, Option.some.injEq, reduceCtorEq]
      rintro ⟨hspec, _, _⟩
      exact hsev ((meetsSeverity_iff_spec cfg g.severity hthr).mpr hspec)
    · rw [hrej]
      simp [processGo]
    · intro _
      exact ⟨rfl, rfl⟩

/-- C6 witness: a concrete actionable grouped finding under a valid
threshold yields exactly one create/update mutation. -/
theorem c6_witness :
    countCU (processGo fixCfg fixM noFetch listAlwaysOk 1 [fixGroup] 0 [] (initResults 1)
      emptyTracker).2.2.log = countCU emptyTracker.log +
      (if rejectionReason fixCfg fixM fixGroup = none then 1 else 0) :=
  (c6_actionable_iff fixCfg fixM noFetch 1 fixGroup 0 [] (initResults 1) emptyTracker
    (by decide) (by decide)).2.1


/-! ## Claim C5 -/

theorem length_filterMap_eq {α β : Type} (f : α → Option β) (l : List α) :
    (l.filterMap f).length = (l.filter (fun x => (f x).isSome)).length := by
  induction l with
  | nil => rfl
  | cons a t ih =>
    cases h : f a <;> simp [List.filterMap_cons, List.filter_cons, h, ih]

/-- C5 (amended): a malformed top-level report (or a missing report file) is
caught inside the parser, which returns an empty finding list; the run then
takes the no-vulnerabilities early return — zero tracker mutations, a zero
summary and a normal (zero) exit code, not a fatal non-zero abort.
Per-result problems do not fail the run: results whose primary location
cannot be resolved are dropped, every other result contributes exactly one
finding. -/
theorem c5_malformed_report (cfg : Config) (m : Mappings) (fetch : Str → Str → Option Str)
    (listOk : GroupedFinding → Bool) (extract : Str → Nat → Nat → Str) (st : TrackerState) :
    parseSARIFResults m extract none = [] ∧
    mainRun cfg m fetch listOk extract none st = (0, initResults 0, st) ∧
    ∀ sarif : Sarif, (parseSARIFResults m extract (some sarif)).length =
      (sarif.runs.map (fun run => (run.results.filter (fun result =>
        ((result.locations.head?).bind (fun l => l.physicalLocation)).isSome)).length)).sum := by
  refine ⟨rfl, rfl, ?_⟩
  intro sarif
  simp only [parseSARIFResults]
  rw [List.length_flatMap]
  congr 1
  apply List.map_congr_left
  intro run _
  simp only [Function.comp_apply]
  rw [length_filterMap_eq]
  congr 1
  apply List.filter_congr
  intro result _
  cases h : (result.locations.head?).bind (fun l => l.physicalLocation) <;> simp [h]

/-- C5 counterexample: a malformed report terminates the run with exit code
zero (not a non-zero exit signal) while performing no tracker mutation. -/
theorem c5_exit_zero_counterexample :
    (mainRun fixCfg fixM noFetch listAlwaysOk fixExtract none emptyTracker).1 = 0 ∧
    (mainRun fixCfg fixM noFetch listAlwaysOk fixExtract none emptyTracker).2.2.log = [] :=
  ⟨rfl, rfl⟩

/-! ## Claim C9 -/

/-- C9 (amended): a group's severity is the severity of the first finding of
its key (later occurrences contribute nothing), and each parsed finding's
severity is the severity-mapping image of its own tool-reported level (with
the `medium` default) — level-driven, not category-driven. -/
theorem c9_severity_level_driven :
    (∀ (fs : List Finding) (g : GroupedFinding), g ∈ groupFindingsByRuleAndFile fs →
      ∃ f, fs.find? (fun f' => decide (strKey f' = g.ruleId ++ ofS ":" ++ g.filePath)) = some f ∧
        g.severity = f.severity) ∧
    (∀ (m : Mappings) (extract : Str → Nat → Nat → Str) (sarif : Sarif) (f : Finding),
      f ∈ parseSARIFResults m extract (some sarif) →
      f.severity = jsOr (alookup m.severityMapping f.level) (ofS "medium")) := by
  constructor
  · intro fs g hg
    rw [groupFindings_characterization] at hg
    obtain ⟨k, hk, hgk⟩ := List.mem_map.mp hg
    obtain ⟨f0, hf0, hf0k⟩ := mem_strKey_of_mem_dedup fs k hk
    have hfind : (fs.find? (fun f' => decide (strKey f' = k))).isSome := by
      rw [List.find?_isSome]
      exact ⟨f0, hf0, by simp [hf0k]⟩
    obtain ⟨f, hf⟩ := Option.isSome_iff_exists.mp hfind
    have hgf : g = { initGroup f with occurrences :=
        (fs.filter (fun f' => decide (strKey f' = k))).map toOcc } := by
      rw [← hgk, groupFor, hf]
    have hkey : g.ruleId ++ ofS ":" ++ g.filePath = k := by
      have hfk : strKey f = k := by
        have := List.find?_some hf
        simpa using this
      rw [hgf]
      exact hfk
    refine ⟨f, ?_, ?_⟩
    · rw [hkey]
      exact hf
    · rw [hgf]
      rfl
  · intro m extract sarif f hf
    simp only [parseSARIFResults, List.mem_flatMap] at hf
    obtain ⟨run, _, hmem⟩ := hf
    rw [List.mem_filterMap] at hmem
    obtain ⟨result, _, hres⟩ := hmem
    rcases hloc : (result.locations.head?).bind (fun l => l.physicalLocation) with _ | location
    · rw [hloc] at hres
      simp at hres
    · rw [hloc] at hres
      simp only [Option.some.injEq] at hres
      rw [← hres]

/-- C9 witness: a concrete group's severity is its first finding's severity,
here obtained from the `error` level of the first occurrence. -/
theorem c9_witness :
    ∃ f, (parseSARIFResults fixM fixExtract
        (some (fixSarif [fixSarifResult "r1" 10 "error", fixSarifResult "r1" 20 "warning"]))).find?
        (fun f' => decide (strKey f' =
          ((groupFindingsByRuleAndFile (parseSARIFResults fixM fixExtract
            (some (fixSarif [fixSarifResult "r1" 10 "error",
              fixSarifResult "r1" 20 "warning"])))).headD default).ruleId ++ ofS ":" ++
          ((groupFindingsByRuleAndFile (parseSARIFResults fixM fixExtract
            (some (fixSarif [fixSarifResult "r1" 10 "error",
              fixSarifResult "r1" 20 "warning"])))).headD default).filePath)) = some f ∧
      ((groupFindingsByRuleAndFile (parseSARIFResults fixM fixExtract
        (some (fixSarif [fixSarifResult "r1" 10 "error",
          fixSarifResult "r1" 20 "warning"])))).headD default).severity = f.severity :=
  c9_severity_level_driven.1
    (parseSARIFResults fixM fixExtract
      (some (fixSarif [fixSarifResult "r1" 10 "error", fixSarifResult "r1" 20 "warning"])))
    ((groupFindingsByRuleAndFile (parseSARIFResults fixM fixExtract
      (some (fixSarif [fixSarifResult "r1" 10 "error",
        fixSarifResult "r1" 20 "warning"])))).headD default)
    (by decide)

/-- C9 counterexample: two results that differ only in occurrence order give
the same (ruleId, filePath) group different severities, so the derived
severity depends on the first occurrence's tool-reported level, not on the
rule's category alone. -/
theorem c9_order_dependent_counterexample :
    (groupFindingsByRuleAndFile (parseSARIFResults fixM fixExtract
      (some (fixSarif [fixSarifResult "r1" 10 "error", fixSarifResult "r1" 20 "warning"])))).map
        (fun g => g.severity) = [ofS "critical"] ∧
    (groupFindingsByRuleAndFile (parseSARIFResults fixM fixExtract
      (some (fixSarif [fixSarifResult "r1" 20 "warning", fixSarifResult "r1" 10 "error"])))).map
        (fun g => g.severity) = [ofS "medium"] := by
  decide


/-! ## Loop characterization -/

theorem reconGo_cons (cfg : Config) (m : Mappings) (fetch : Str → Str → Option Str)
    (g : GroupedFinding) (gs : List GroupedFinding) (st : TrackerState) :
    reconGo cfg m fetch (g :: gs) st =
      ((reconGo cfg m fetch gs (reconStep cfg m fetch g st).1).1,
        (reconStep cfg m fetch g st).2 ::
          (reconGo cfg m fetch gs (reconStep cfg m fetch g st).1).2) := rfl

/-- The loop, factored: its tracker-state effect is the reconciliation fold
over the reference processed list, its key set is the concatenation of the
processed findings' occurrence keys, its created/updated counters count the
fold's actions, and it records no errors. -/
theorem processGo_spec (cfg : Config) (m : Mappings) (fetch : Str → Str → Option Str)
    (total : Nat) : ∀ (gfs : List GroupedFinding) (pc : Nat) (keys : List Str)
    (results : RunResults) (st : TrackerState),
    (processGo cfg m fetch listAlwaysOk total gfs pc keys results st).2.2 =
      (reconGo cfg m fetch (procRef cfg m gfs pc) st).1 ∧
    (processGo cfg m fetch listAlwaysOk total gfs pc keys results st).2.1 =
      keys ++ (procRef cfg m gfs pc).flatMap occKeys ∧
    (processGo cfg m fetch listAlwaysOk total gfs pc keys results st).1.created =
      results.created + countCreated (reconGo cfg m fetch (procRef cfg m gfs pc) st).2 ∧
    (processGo cfg m fetch listAlwaysOk total gfs pc keys results st).1.updated =
      results.updated + countUpdated (reconGo cfg m fetch (procRef cfg m gfs pc) st).2 ∧
    (processGo cfg m fetch listAlwaysOk total gfs pc keys results st).1.errors =
      results.errors := by
  intro gfs
  induction gfs with
  | nil =>
    intro pc keys results st
    refine ⟨rfl, by simp [procRef, reconGo, processGo], ?_, ?_, rfl⟩
    · simp [procRef, reconGo, processGo, countCreated]
    · simp [procRef, reconGo, processGo, countUpdated]
  | cons g gs ih =>
    intro pc keys results st
    by_cases hcap : pc ≥ cfg.maxIssuesPerRun
    · have hp : procRef cfg m (g :: gs) pc = [] := by
        simp [procRef, hcap]
      have hgo : processGo cfg m fetch listAlwaysOk total (g :: gs) pc keys results st =
          ({ results with skipped := results.skipped + (total - pc) }, keys, st) := by
        simp [processGo, hcap]
      rw [hgo, hp]
      refine ⟨rfl, by simp [reconGo], ?_, ?_, rfl⟩
      · simp [reconGo, countCreated]
      · simp [reconGo, countUpdated]
    · by_cases hsev : meetsSeverityThreshold cfg g.severity = true
      · by_cases hpath : shouldExcludePath cfg g.filePath = true
        · -- rejected by path
          have hp : procRef cfg m (g :: gs) pc = procRef cfg m gs pc := by
            simp [procRef, hcap, hsev, hpath]
          have hgo : processGo cfg m fetch listAlwaysOk total (g :: gs) pc keys results st =
              processGo cfg m fetch listAlwaysOk total gs pc keys
                { results with
                  bySeverity := incrCount results.bySeverity g.severity,
                  skipped := results.skipped + 1 } st := by
            simp [processGo, hcap, hsev, hpath]
          rw [hgo, hp]
          exact ih pc keys _ st
        · cases how' : mapToOWASP m g.ruleId with
          | none =>
            have hp : procRef cfg m (g :: gs) pc = procRef cfg m gs pc := by
              simp [procRef, hcap, hsev, hpath, how']
            have hgo : processGo cfg m fetch listAlwaysOk total (g :: gs) pc keys results st =
                processGo cfg m fetch listAlwaysOk total gs pc keys
                  { results with
                    bySeverity := incrCount results.bySeverity g.severity,
                    skipped := results.skipped + 1 } st := by
              simp [processGo, hcap, hsev, hpath, how']
            rw [hgo, hp]
            exact ih pc keys _ st
          | some ow =>
            have hp : procRef cfg m (g :: gs) pc = g :: procRef cfg m gs (pc + 1) := by
              simp [procRef, hcap, hsev, hpath, how']
            have hstep : createOrUpdateIssue cfg st (some (openSentinelIssues st)) g
                (createIssueBody cfg g (promptsFor cfg m fetch ow g))
                (generateLabels m g (some ow) (maintFiles cfg m ow g)) =
                reconStep cfg m fetch g st := by
              rw [reconStep, bodyFor, labelsFor, how']
            cases hact : (reconStep cfg m fetch g st).2 with
            | created =>
              have hgo : processGo cfg m fetch listAlwaysOk total (g :: gs) pc keys results st =
                  processGo cfg m fetch listAlwaysOk total gs (pc + 1) (keys ++ occKeys g)
                    { results with
                      bySeverity := incrCount results.bySeverity g.severity,
                      byOwasp := incrCount results.byOwasp ow.1,
                      created := results.created + 1 }
                    (reconStep cfg m fetch g st).1 := by
                simp [processGo, hcap, hsev, hpath, how', listAlwaysOk, hstep, hact, occKeys]
              obtain ⟨h1, h2, h3, h4, h5⟩ := ih (pc + 1) (keys ++ occKeys g)
                ({ results with
                  bySeverity := incrCount results.bySeverity g.severity,
                  byOwasp := incrCount results.byOwasp ow.1,
                  created := results.created + 1 }) (reconStep cfg m fetch g st).1
              rw [hgo, hp, reconGo_cons, hact]
              refine ⟨h1, ?_, ?_, ?_, h5⟩
              · rw [h2, List.flatMap_cons, List.append_assoc]
              · rw [h3]
                simp only [countCreated, List.filter_cons, decide_eq_true_eq]
                simp [List.length_cons]
                omega
              · rw [h4]
                simp only [countUpdated, List.filter_cons]
                simp
            | updated =>
              have hgo : processGo cfg m fetch listAlwaysOk total (g :: gs) pc keys results st =
                  processGo cfg m fetch listAlwaysOk total gs (pc + 1) (keys ++ occKeys g)
                    { results with
                      bySeverity := incrCount results.bySeverity g.severity,
                      byOwasp := incrCount results.byOwasp ow.1,
                      updated := results.updated + 1 }
                    (reconStep cfg m fetch g st).1 := by
                simp [processGo, hcap, hsev, hpath, how', listAlwaysOk, hstep, hact, occKeys]
              obtain ⟨h1, h2, h3, h4, h5⟩ := ih (pc + 1) (keys ++ occKeys g)
                ({ results with
                  bySeverity := incrCount results.bySeverity g.severity,
                  byOwasp := incrCount results.byOwasp ow.1,
                  updated := results.updated + 1 }) (reconStep cfg m fetch g st).1
              rw [hgo, hp, reconGo_cons, hact]
              refine ⟨h1, ?_, ?_, ?_, h5⟩
              · rw [h2, List.flatMap_cons, List.append_assoc]
              · rw [h3]
                simp only [countCreated, List.filter_cons]
                simp
              · rw [h4]
                simp only [countUpdated, List.filter_cons, decide_eq_true_eq]
                simp [List.length_cons]
                omega
      · -- rejected by severity
        have hp : procRef cfg m (g :: gs) pc = procRef cfg m gs pc := by
          simp [procRef, hcap, hsev]
        have hgo : processGo cfg m fetch listAlwaysOk total (g :: gs) pc keys results st =
            processGo cfg m fetch listAlwaysOk total gs pc keys
              { results with
                bySeverity := incrCount results.bySeverity g.severity,
                skipped := results.skipped + 1 } st := by
          simp [processGo, hcap, hsev]
        rw [hgo, hp]
        exact ih pc keys _ st


theorem rejectionReason_none_iff (cfg : Config) (m : Mappings) (g : GroupedFinding) :
    rejectionReason cfg m g = none ↔
      (meetsSeverityThreshold cfg g.severity = true ∧
        shouldExcludePath cfg g.filePath = false ∧
        (mapToOWASP m g.ruleId).isSome = true) := by
  unfold rejectionReason
  by_cases hsev : meetsSeverityThreshold cfg g.severity = true
  · by_cases hpath : shouldExcludePath cfg g.filePath = true
    · simp [hsev, hpath]
    · cases how : mapToOWASP m g.ruleId with
      | none => simp [hsev, hpath, how]
      | some ow => simp [hsev, hpath, how]
  · have hsev' : meetsSeverityThreshold cfg g.severity = false := by
      cases h : meetsSeverityThreshold cfg g.severity
      · rfl
      · exact absurd h hsev
    simp [hsev']

/-! ## Claim C3 -/

/-- C3 (amended): the live-key set handed to the auto-close sweep is the
union of `ruleId:filePath:startLine` keys over exactly the grouped findings
the loop processed — those within the cap that pass the severity, path and
mapping filters — not over all grouped findings built this run; a grouped
finding suppressed by filtering contributes no keys. -/
theorem c3_live_keys_are_processed_keys (cfg : Config) (m : Mappings)
    (fetch : Str → Str → Option Str) (findings : List Finding) (st : TrackerState) :
    (processFindingsCore cfg m fetch listAlwaysOk findings st).2.1 =
      (procRef cfg m (groupFindingsByRuleAndFile findings) 0).flatMap occKeys := by
  have h := (processGo_spec cfg m fetch (groupFindingsByRuleAndFile findings).length
    (groupFindingsByRuleAndFile findings) 0 [] (initResults findings.length) st).2.1
  simpa [processFindingsCore] using h

/-- C3 counterexample: a finding suppressed only by the severity filter
contributes no live key — the key set is empty while the union over all
grouped findings is not — and its open TrackedItem is falsely closed by the
sweep of the same run. -/
theorem c3_filtered_finding_falsely_closed_counterexample :
    (processFindingsCore fixCfg fixM noFetch listAlwaysOk [lowFinding] lowState).2.1 = [] ∧
    occKeys ((groupFindingsByRuleAndFile [lowFinding]).headD default) =
      [vulnKey (ofS "r0") (ofS "c.js") (ofS "5")] ∧
    ((processFindings fixCfg fixM noFetch listAlwaysOk [lowFinding]
      lowState).2.issues.headD default).state = ofS "closed" ∧
    (processFindings fixCfg fixM noFetch listAlwaysOk [lowFinding] lowState).1.closed = 1 := by
  decide

/-! ## Claim C7 -/

/-- C7 (amended): with a cap of one item per run and two grouped findings
that both pass the filters, exactly one create/update is performed and
exactly one finding is counted as skipped — and once the cap is reached no
further create/update mutation is emitted.  (The skipped counter uses
`total - processedCount`, which re-counts findings already rejected by the
filter stage, so in general it can double-count; see the counterexample.) -/
theorem c7_cap_stops_work (cfg : Config) (m : Mappings) (fetch : Str → Str → Option Str)
    (g1 g2 : GroupedFinding) (keys : List Str) (results : RunResults) (st : TrackerState)
    (hmax : cfg.maxIssuesPerRun = 1)
    (h1 : rejectionReason cfg m g1 = none)
    (h2 : rejectionReason cfg m g2 = none) :
    (processGo cfg m fetch listAlwaysOk 2 [g1, g2] 0 keys results st).1.created +
      (processGo cfg m fetch listAlwaysOk 2 [g1, g2] 0 keys results st).1.updated =
      results.created + results.updated + 1 ∧
    (processGo cfg m fetch listAlwaysOk 2 [g1, g2] 0 keys results st).1.skipped =
      results.skipped + 1 ∧
    countCU (processGo cfg m fetch listAlwaysOk 2 [g1, g2] 0 keys results st).2.2.log =
      countCU st.log + 1 := by
  obtain ⟨hsev, hpath, how⟩ := (rejectionReason_none_iff cfg m g1).mp h1
  obtain ⟨ow, how'⟩ := Option.isSome_iff_exists.mp how
  have hncap : ¬(0 ≥ cfg.maxIssuesPerRun) := by omega
  have hcap1 : (1 : Nat) ≥ cfg.maxIssuesPerRun := by omega
  have hstep : createOrUpdateIssue cfg st (some (openSentinelIssues st)) g1
      (createIssueBody cfg g1 (promptsFor cfg m fetch ow g1))
      (generateLabels m g1 (some ow) (maintFiles cfg m ow g1)) =
      reconStep cfg m fetch g1 st := by
    rw [reconStep, bodyFor, labelsFor, how']
  cases hact : (reconStep cfg m fetch g1 st).2 with
  | created =>
    have hgo : processGo cfg m fetch listAlwaysOk 2 [g1, g2] 0 keys results st =
        ({ results with
            bySeverity := incrCount results.bySeverity g1.severity,
            byOwasp := incrCount results.byOwasp ow.1,
            created := results.created + 1,
            skipped := results.skipped + (2 - 1) },
          keys ++ occKeys g1, (reconStep cfg m fetch g1 st).1) := by
      simp [processGo, hncap, hsev, hpath, how', listAlwaysOk, hstep, hact, occKeys, hcap1]
    rw [hgo]
    refine ⟨?_, rfl, ?_⟩
    · show results.created + 1 + results.updated = results.created + results.updated + 1
      omega
    · have := countCU_createOrUpdate cfg st (some (openSentinelIssues st)) g1
        (createIssueBody cfg g1 (promptsFor cfg m fetch ow g1))
        (generateLabels m g1 (some ow) (maintFiles cfg m ow g1))
      rw [hstep] at this
      exact this
  | updated =>
    have hgo : processGo cfg m fetch listAlwaysOk 2 [g1, g2] 0 keys results st =
        ({ results with
            bySeverity := incrCount results.bySeverity g1.severity,
            byOwasp := incrCount results.byOwasp ow.1,
            updated := results.updated + 1,
            skipped := results.skipped + (2 - 1) },
          keys ++ occKeys g1, (reconStep cfg m fetch g1 st).1) := by
      simp [processGo, hncap, hsev, hpath, how', listAlwaysOk, hstep, hact, occKeys, hcap1]
    rw [hgo]
    refine ⟨?_, rfl, ?_⟩
    · show results.created + (results.updated + 1) = results.created + results.updated + 1
      omega
    · have := countCU_createOrUpdate cfg st (some (openSentinelIssues st)) g1
        (createIssueBody cfg g1 (promptsFor cfg m fetch ow g1))
        (generateLabels m g1 (some ow) (maintFiles cfg m ow g1))
      rw [hstep] at this
      exact this

/-- C7 witness: the concrete cap-of-one scenario with two actionable grouped
findings counts exactly one skip. -/
theorem c7_witness :
    (processGo capCfg fixM noFetch listAlwaysOk 2 [fixGroup, fixGroup2] 0 []
      (initResults 2) emptyTracker).1.skipped = (initResults 2).skipped + 1 :=
  (c7_cap_stops_work capCfg fixM noFetch fixGroup fixGroup2 [] (initResults 2) emptyTracker
    rfl (by decide) (by decide)).2.1

/-- C7 counterexample: with a filter rejection before the cap is reached,
the skipped counter (`total - processedCount` at the cap, plus earlier
filter rejections) double-counts: three grouped findings, one processed,
yet four are accounted for (1 created/updated + 3 skipped). -/
theorem c7_skip_double_count_counterexample :
    (groupFindingsByRuleAndFile [lowFinding, hiFindingA, hiFindingB]).length = 3 ∧
    (processFindings capCfg fixM noFetch listAlwaysOk [lowFinding, hiFindingA, hiFindingB]
        emptyTracker).1.created +
      (processFindings capCfg fixM noFetch listAlwaysOk [lowFinding, hiFindingA, hiFindingB]
        emptyTracker).1.updated = 1 ∧
    (processFindings capCfg fixM noFetch listAlwaysOk [lowFinding, hiFindingA, hiFindingB]
        emptyTracker).1.skipped = 3 := by
  decide

theorem containsSub_append_self (p n : Str) : containsSub (p ++ n) n = true :=
  (containsSub_iff _ _).mpr ⟨p, [], by simp⟩

theorem isPre_mem {n h : Str} (hp : isPre n h = true) {c : Char} (hc : c ∈ n) : c ∈ h := by
  obtain ⟨s, rfl⟩ := (isPre_iff n h).mp hp
  exact List.mem_append.mpr (Or.inl hc)

/-- The backtick marker always carries a backtick character. -/
theorem tick_has_tick (s : Str) : '`' ∈ tick s := by
  simp only [tick]
  exact List.mem_append.mpr (Or.inl (List.mem_append.mpr (Or.inl (by decide))))

/-- A haystack without backticks contains no needle that has one. -/
theorem containsSub_false_of_clean {h n : Str} (hclean : ∀ c ∈ h, c ≠ '`')
    (hn : '`' ∈ n) : containsSub h n = false := by
  cases hcs : containsSub h n with
  | false => rfl
  | true => exact absurd rfl (hclean '`' (mem_of_containsSub hcs hn))

/-- The table-row capture scan finds nothing in a backtick-free body when its
literal contains a backtick. -/
theorem tickScan_none_of_clean {lit : Str} (hlit : '`' ∈ lit) :
    ∀ (s : Str), (∀ c ∈ s, c ≠ '`') → tickCaptureScan lit s = none := by
  intro s
  induction s with
  | nil => intro _; rfl
  | cons a t ih =>
    intro hclean
    have hat : tickCaptureAt lit (a :: t) = none := by
      cases hp : isPre lit (a :: t) with
      | false => simp [tickCaptureAt, hp]
      | true => exact absurd rfl (hclean '`' (isPre_mem hp hlit))
    simp only [tickCaptureScan, hat]
    exact ih (fun c hc => hclean c (List.mem_cons_of_mem a hc))

/-- The sweep's marker extraction fails on a backtick-free body. -/
theorem parseCloseInfo_none_of_clean {s : Str} (h : ∀ c ∈ s, c ≠ '`') :
    parseCloseInfo s = none := by
  have h1 : tickCaptureScan (ofS "**CodeQL Rule** | `") s = none :=
    tickScan_none_of_clean (by decide) s h
  simp [parseCloseInfo, h1]

/-- The metadata table of the body header carries the backtick rule marker. -/
theorem bodyHeader_rule_marker (cfg : Config) (g : GroupedFinding) (pr : Prompts) :
    containsSub (bodyHeader cfg g pr) (tick g.ruleId) = true := by
  simp only [bodyHeader]
  refine containsSub_append_left ?_ _
  refine containsSub_append_left ?_ _
  refine containsSub_append_left ?_ _
  refine containsSub_append_left ?_ _
  refine containsSub_append_left ?_ _
  refine containsSub_append_left ?_ _
  refine containsSub_append_left ?_ _
  refine containsSub_append_left ?_ _
  refine containsSub_append_left ?_ _
  exact containsSub_append_self _ _

/-- The metadata table of the body header carries the backtick file marker. -/
theorem bodyHeader_file_marker (cfg : Config) (g : GroupedFinding) (pr : Prompts) :
    containsSub (bodyHeader cfg g pr) (tick g.filePath) = true := by
  simp only [bodyHeader]
  refine containsSub_append_left ?_ _
  refine containsSub_append_left ?_ _
  refine containsSub_append_left ?_ _
  exact containsSub_append_self _ _

/-- The assembled body carries the backtick rule marker. -/
theorem asm_rule_marker (cfg : Config) (g : GroupedFinding) (pr : Prompts) :
    containsSub (assembleIssueBody cfg g pr) (tick g.ruleId) = true := by
  have h := bodyHeader_rule_marker cfg g pr
  simp only [assembleIssueBody]
  exact containsSub_append_left (containsSub_append_left (containsSub_append_left
    (containsSub_append_left (containsSub_append_left (containsSub_append_left
      (containsSub_append_left h _) _) _) _) _) _) _

/-- The assembled body carries the backtick file marker. -/
theorem asm_file_marker (cfg : Config) (g : GroupedFinding) (pr : Prompts) :
    containsSub (assembleIssueBody cfg g pr) (tick g.filePath) = true := by
  have h := bodyHeader_file_marker cfg g pr
  simp only [assembleIssueBody]
  exact containsSub_append_left (containsSub_append_left (containsSub_append_left
    (containsSub_append_left (containsSub_append_left (containsSub_append_left
      (containsSub_append_left h _) _) _) _) _) _) _

/-- Every occurrence section carries its `Lines <start>` marker, in both the
multi-location and the single-location label formats. -/
theorem occSection_line_marker (count : Nat) (lang : Str) (index : Nat) (occ : Occurrence) :
    containsSub (occurrenceSection count lang index occ)
      (ofS "Lines " ++ natStr occ.startLine) = true := by
  simp only [occurrenceSection]
  generalize (if occ.endLine ≠ occ.startLine then ofS "-" ++ natStr occ.endLine
    else ([] : Str)) = T
  refine containsSub_append_left ?_ _
  refine containsSub_append_left ?_ _
  refine containsSub_append_left ?_ _
  refine containsSub_append_left ?_ _
  refine containsSub_append_left ?_ _
  refine containsSub_append_left ?_ _
  refine containsSub_append_left ?_ _
  refine containsSub_append_right ?_ _
  split
  · refine (containsSub_iff _ _).mpr
      ⟨ofS "#### Location " ++ natStr (index + 1) ++ ofS ": ", T, ?_⟩
    have hsplit : ofS ": Lines " = ofS ": " ++ ofS "Lines " := by decide
    rw [hsplit]
    simp [List.append_assoc]
  · refine (containsSub_iff _ _).mpr ⟨ofS "#### ", T, ?_⟩
    have hsplit : ofS "#### Lines " = ofS "#### " ++ ofS "Lines " := by decide
    rw [hsplit]
    simp [List.append_assoc]

/-- A substring of a member list is a substring of the flattened list. -/
theorem containsSub_flatten_of_mem {L : List Str} {l : Str} (hl : l ∈ L) {n : Str}
    (hc : containsSub l n = true) : containsSub L.flatten n = true := by
  obtain ⟨s, t, rfl⟩ := List.append_of_mem hl
  rw [List.flatten_append, List.flatten_cons]
  exact containsSub_append_right (containsSub_append_left hc _) _

/-- The flattened occurrence sections carry each occurrence's `Lines` marker,
for any enumeration start. -/
theorem occSections_line_marker (count : Nat) (lang : Str) :
    ∀ (occs : List Occurrence) (k : Nat) (occ : Occurrence), occ ∈ occs →
      containsSub ((List.map (fun p => occurrenceSection count lang p.1 p.2)
        (List.enumFrom k occs)).flatten) (ofS "Lines " ++ natStr occ.startLine) = true := by
  intro occs
  induction occs with
  | nil => intro k occ h; cases h
  | cons o t ih =>
    intro k occ h
    simp only [List.enumFrom, List.map_cons, List.flatten_cons]
    cases h with
    | head => exact containsSub_append_left (occSection_line_marker count lang k o) _
    | tail _ hmem => exact containsSub_append_right (ih (k + 1) occ hmem) _

/-- The assembled body carries every occurrence's `Lines <start>` marker. -/
theorem asm_line_marker (cfg : Config) (g : GroupedFinding) (pr : Prompts) :
    ∀ occ ∈ g.occurrences,
      containsSub (assembleIssueBody cfg g pr) (ofS "Lines " ++ natStr occ.startLine) = true := by
  intro occ hocc
  simp only [assembleIssueBody, List.enum]
  refine containsSub_append_left ?_ _
  refine containsSub_append_left ?_ _
  refine containsSub_append_left ?_ _
  refine containsSub_append_left ?_ _
  refine containsSub_append_left ?_ _
  refine containsSub_append_left ?_ _
  refine containsSub_append_right ?_ _
  exact occSections_line_marker g.occurrences.length (bodyLanguage g) g.occurrences 0 occ hocc

/-- **C8** (corrected): the rendered body is bounded by
`MAX_BODY_LENGTH` plus the fixed truncation notice (which stays under
GitHub's 65536-character hard limit), and when the assembled body fits in
`MAX_BODY_LENGTH` it is emitted unchanged, so the backtick rule and file
markers and every occurrence's `Lines` marker survive.  (Truncation itself
can destroy the markers; see the counterexample.) -/
theorem c8_body_size_and_markers (cfg : Config) (g : GroupedFinding) (pr : Prompts) :
    (createIssueBody cfg g pr).length ≤ maxBodyLength + truncNotice.length ∧
    maxBodyLength + truncNotice.length < 65536 ∧
    ((assembleIssueBody cfg g pr).length ≤ maxBodyLength →
      createIssueBody cfg g pr = assembleIssueBody cfg g pr ∧
      containsSub (createIssueBody cfg g pr) (tick g.ruleId) = true ∧
      containsSub (createIssueBody cfg g pr) (tick g.filePath) = true ∧
      ∀ occ ∈ g.occurrences,
        containsSub (createIssueBody cfg g pr) (ofS "Lines " ++ natStr occ.startLine) = true) := by
  refine ⟨?_, by decide, ?_⟩
  · simp only [createIssueBody]
    split
    · rw [List.length_append, List.length_take]
      have := min_le_left maxBodyLength (assembleIssueBody cfg g pr).length
      omega
    · rename_i hnot
      have : (assembleIssueBody cfg g pr).length ≤ maxBodyLength := Nat.not_lt.mp hnot
      omega
  · intro hle
    have heq : createIssueBody cfg g pr = assembleIssueBody cfg g pr := by
      simp only [createIssueBody]
      rw [if_neg (Nat.not_lt.mpr hle)]
    refine ⟨heq, ?_, ?_, ?_⟩
    · rw [heq]; exact asm_rule_marker cfg g pr
    · rw [heq]; exact asm_file_marker cfg g pr
    · rw [heq]; exact asm_line_marker cfg g pr

/-- C8 witness: the one-occurrence fixture body fits in the limit, is emitted
untruncated, and carries its rule, file and line markers. -/
theorem c8_witness :
    (assembleIssueBody fixCfg fixGroup fixPrompts).length ≤ maxBodyLength ∧
    (createIssueBody fixCfg fixGroup fixPrompts = assembleIssueBody fixCfg fixGroup fixPrompts ∧
      containsSub (createIssueBody fixCfg fixGroup fixPrompts) (tick fixGroup.ruleId) = true ∧
      containsSub (createIssueBody fixCfg fixGroup fixPrompts) (tick fixGroup.filePath) = true ∧
      ∀ occ ∈ fixGroup.occurrences,
        containsSub (createIssueBody fixCfg fixGroup fixPrompts)
          (ofS "Lines " ++ natStr occ.startLine) = true) :=
  ⟨by decide, (c8_body_size_and_markers fixCfg fixGroup fixPrompts).2.2 (by decide)⟩

/-- The oversized fixture's assembled body decomposes as the header prefix,
the oversized rule name, then the remainder. -/
theorem hugeAsm_decomp : ∃ rest, assembleIssueBody fixCfg hugeGroup fixPrompts =
    (ofS "## 🔴 Security Vulnerability: " ++ List.replicate 70001 'a') ++ rest :=
  ⟨_, by simp only [assembleIssueBody, bodyHeader, hugeGroup, fixGroup, List.append_assoc]; rfl⟩

/-- The oversized fixture's assembled body exceeds `MAX_BODY_LENGTH`. -/
theorem hugeAsm_long : maxBodyLength < (assembleIssueBody fixCfg hugeGroup fixPrompts).length := by
  obtain ⟨rest, h⟩ := hugeAsm_decomp
  rw [h, List.length_append, List.length_append, List.length_replicate]
  simp only [maxBodyLength]
  omega

/-- Every character of the oversized fixture's rendered (truncated) body is
backtick-free: the cut falls inside the rule name, before all markers, and
the truncation notice has none either. -/
theorem hugeBody_clean : ∀ c ∈ createIssueBody fixCfg hugeGroup fixPrompts, c ≠ '`' := by
  obtain ⟨rest, hdec⟩ := hugeAsm_decomp
  have hbody : createIssueBody fixCfg hugeGroup fixPrompts =
      (assembleIssueBody fixCfg hugeGroup fixPrompts).take maxBodyLength ++ truncNotice := by
    simp only [createIssueBody]
    rw [if_pos hugeAsm_long]
  rw [hbody, hdec]
  intro c hc
  rcases List.mem_append.mp hc with h1 | h2
  · rw [List.take_append_eq_append_take] at h1
    have hz : maxBodyLength -
        (ofS "## 🔴 Security Vulnerability: " ++ List.replicate 70001 'a').length = 0 := by
      rw [List.length_append, List.length_replicate]
      simp only [maxBodyLength]
      omega
    rw [hz, List.take_zero, List.append_nil] at h1
    have h1' := List.take_subset maxBodyLength _ h1
    rcases List.mem_append.mp h1' with hp | hr
    · have hpfx : ∀ c ∈ ofS "## 🔴 Security Vulnerability: ", c ≠ '`' := by decide
      exact hpfx c hp
    · rw [List.eq_of_mem_replicate hr]; decide
  · have hnot : ∀ c ∈ truncNotice, c ≠ '`' := by decide
    exact hnot c h2

/-- **C8** counterexample: with an oversized rule name the assembled body
exceeds `MAX_BODY_LENGTH`, and the truncated body that is actually emitted
has lost every backtick marker — the dedup lookup's rule and file substring
matches both fail and the auto-close sweep's marker extraction parses
nothing, so truncation does corrupt the embedded markers. -/
theorem c8_truncation_corrupts_markers_counterexample :
    maxBodyLength < (assembleIssueBody fixCfg hugeGroup fixPrompts).length ∧
    containsSub (createIssueBody fixCfg hugeGroup fixPrompts) (tick hugeGroup.ruleId) = false ∧
    containsSub (createIssueBody fixCfg hugeGroup fixPrompts) (tick hugeGroup.filePath) = false ∧
    parseCloseInfo (createIssueBody fixCfg hugeGroup fixPrompts) = none :=
  ⟨hugeAsm_long,
   containsSub_false_of_clean hugeBody_clean (tick_has_tick _),
   containsSub_false_of_clean hugeBody_clean (tick_has_tick _),
   parseCloseInfo_none_of_clean hugeBody_clean⟩

theorem map_id_of_mem {α : Type} (l : List α) (f : α → α) (h : ∀ a ∈ l, f a = a) :
    l.map f = l := by
  induction l with
  | nil => rfl
  | cons a t ih => simp [h a (by simp), ih (fun b hb => h b (by simp [hb]))]

theorem filter_length_map {α : Type} (f : α → α) (p : α → Bool) (l : List α)
    (h : ∀ a, p (f a) = p a) : ((l.map f).filter p).length = (l.filter p).length := by
  rw [← List.countP_eq_length_filter, ← List.countP_eq_length_filter, List.countP_map]
  exact List.countP_congr (fun a _ => by rw [Function.comp_apply, h a])

/-- Every grouped finding the loop processes passed the three filters. -/
theorem mem_procRef {cfg : Config} {m : Mappings} :
    ∀ {gfs : List GroupedFinding} {pc : Nat} {g : GroupedFinding}, g ∈ procRef cfg m gfs pc →
      meetsSeverityThreshold cfg g.severity = true ∧
      shouldExcludePath cfg g.filePath = false ∧ (mapToOWASP m g.ruleId).isSome = true := by
  intro gfs
  induction gfs with
  | nil => intro pc g h; simp [procRef] at h
  | cons a t ih =>
    intro pc g h
    by_cases hcap : pc ≥ cfg.maxIssuesPerRun
    · simp [procRef, hcap] at h
    · by_cases hsev : meetsSeverityThreshold cfg a.severity = true
      · by_cases hpath : shouldExcludePath cfg a.filePath = true
        · rw [show procRef cfg m (a :: t) pc = procRef cfg m t pc from by
            simp [procRef, hcap, hsev, hpath]] at h
          exact ih h
        · cases how : mapToOWASP m a.ruleId with
          | none =>
            rw [show procRef cfg m (a :: t) pc = procRef cfg m t pc from by
              simp [procRef, hcap, hsev, hpath, how]] at h
            exact ih h
          | some ow =>
            rw [show procRef cfg m (a :: t) pc = a :: procRef cfg m t (pc + 1) from by
              simp [procRef, hcap, hsev, hpath, how]] at h
            cases h with
            | head =>
              refine ⟨hsev, ?_, by simp [how]⟩
              cases hp : shouldExcludePath cfg a.filePath with
              | false => rfl
              | true => exact absurd hp hpath
            | tail _ hm => exact ih hm
      · rw [show procRef cfg m (a :: t) pc = procRef cfg m t pc from by
          simp [procRef, hcap, hsev]] at h
        exact ih h

/-- `generateLabels` always carries the sentinel label. -/
theorem sentinel_mem_generateLabels (m : Mappings) (g : GroupedFinding)
    (ow : Option (Str × OwaspCategory)) (mf : List Str) :
    ofS "codeql-finding" ∈ generateLabels m g ow mf := by
  simp only [generateLabels]
  apply List.mem_append_left
  apply List.mem_append_left
  split
  · rename_i info
    by_cases hinfo : info.1 = []
    · rw [if_pos hinfo]
      split
      · split
        · simp
        · exact List.mem_append_left _ (by simp)
      · simp
    · rw [if_neg hinfo]
      apply List.mem_append_left
      split
      · split
        · simp
        · exact List.mem_append_left _ (by simp)
      · simp
  · split
    · split
      · simp
      · exact List.mem_append_left _ (by simp)
    · simp

/-- The labels the loop attaches to a mapped grouped finding carry the
sentinel label. -/
theorem sentinel_mem_labelsFor {cfg : Config} {m : Mappings} {g : GroupedFinding}
    (hmap : (mapToOWASP m g.ruleId).isSome = true) :
    ofS "codeql-finding" ∈ labelsFor cfg m g := by
  cases how : mapToOWASP m g.ruleId with
  | none => rw [how] at hmap; simp at hmap
  | some ow =>
    simp only [labelsFor, how]
    exact sentinel_mem_generateLabels m g (some ow) _

theorem reconStep_update {cfg : Config} {m : Mappings} {fetch : Str → Str → Option Str}
    {g : GroupedFinding} {S : TrackerState} {X : Issue}
    (hfind : findExistingIssue (some (openSentinelIssues S)) g = some X) :
    reconStep cfg m fetch g S =
      ({ issues := S.issues.map (fun i => if i.number = X.number then
            { i with body := bodyFor cfg m fetch g, labels := labelsFor cfg m g } else i),
         log := S.log ++ [Mut.update X.number, Mut.comment X.number],
         nextNum := S.nextNum }, IssueAction.updated) := by
  simp [reconStep, createOrUpdateIssue, hfind]

theorem reconStep_create {cfg : Config} {m : Mappings} {fetch : Str → Str → Option Str}
    {g : GroupedFinding} {S : TrackerState}
    (hfind : findExistingIssue (some (openSentinelIssues S)) g = none) :
    reconStep cfg m fetch g S =
      ({ issues := S.issues ++
           [createdIssue cfg S g (bodyFor cfg m fetch g) (labelsFor cfg m g)],
         log := S.log ++ [Mut.create S.nextNum],
         nextNum := S.nextNum + 1 }, IssueAction.created) := by
  simp [reconStep, createOrUpdateIssue, createdIssue, hfind]

/-- What the dedup lookup's hit tells us about the matched issue. -/
theorem findExisting_props {S : TrackerState} {g : GroupedFinding} {X : Issue}
    (h : findExistingIssue (some (openSentinelIssues S)) g = some X) :
    X ∈ S.issues ∧ X.state = ofS "open" ∧ ofS "codeql-finding" ∈ X.labels ∧
    containsSub X.body (tick g.ruleId) = true ∧ containsSub X.body (tick g.filePath) = true := by
  simp only [findExistingIssue] at h
  have hmem := List.mem_of_find?_eq_some h
  have hpred := List.find?_some h
  simp only [openSentinelIssues, List.mem_filter, Bool.and_eq_true, decide_eq_true_eq] at hmem
  simp only [Bool.and_eq_true] at hpred
  exact ⟨hmem.1, hmem.2.1, hmem.2.2, hpred.1, hpred.2⟩

/-- An open sentinel witness whose body carries the markers guarantees the
dedup lookup hits. -/
theorem findExisting_hits {S : TrackerState} {g : GroupedFinding} {b : Str}
    (hw : hasWitness S b)
    (hr : containsSub b (tick g.ruleId) = true) (hf : containsSub b (tick g.filePath) = true) :
    ∃ X, findExistingIssue (some (openSentinelIssues S)) g = some X := by
  obtain ⟨i, hi, hopen, hsent, hbody⟩ := hw
  simp only [findExistingIssue]
  cases hfind : (openSentinelIssues S).find? (fun issue =>
      containsSub issue.body (tick g.ruleId) && containsSub issue.body (tick g.filePath)) with
  | some X => exact ⟨X, rfl⟩
  | none =>
    exfalso
    have hmem : i ∈ openSentinelIssues S := by
      simp only [openSentinelIssues, List.mem_filter, Bool.and_eq_true, decide_eq_true_eq]
      exact ⟨hi, hopen, hsent⟩
    have := List.find?_eq_none.mp hfind i hmem
    rw [hbody] at this
    simp [hr, hf] at this

/-- Distinct issues of a wellformed tracker have distinct numbers. -/
theorem eq_of_number_eq {S : TrackerState} (hWF : WFState S) {a b : Issue}
    (ha : a ∈ S.issues) (hb : b ∈ S.issues) (h : a.number = b.number) : a = b :=
  List.inj_on_of_nodup_map hWF.1 ha hb (by simpa using h)

/-- Wellformedness survives any pointwise issue rewrite that keeps numbers. -/
theorem WF_of_map {S : TrackerState} (hWF : WFState S) (f : Issue → Issue)
    (hf : ∀ i, (f i).number = i.number) (lg : List Mut) :
    WFState { issues := S.issues.map f, log := lg, nextNum := S.nextNum } := by
  constructor
  · have heq : (S.issues.map f).map (fun i => i.number) =
        S.issues.map (fun i => i.number) := by
      rw [List.map_map]
      exact List.map_congr_left (fun i _ => hf i)
    rw [heq]
    exact hWF.1
  · intro i hi
    obtain ⟨j, hj, rfl⟩ := List.mem_map.mp hi
    rw [hf j]
    exact hWF.2 j hj

/-- The open-item count survives any pointwise issue rewrite that keeps
states. -/
theorem openCount_of_map (S : TrackerState) (f : Issue → Issue)
    (hf : ∀ i, (f i).state = i.state) (lg : List Mut) :
    openCount { issues := S.issues.map f, log := lg, nextNum := S.nextNum } = openCount S :=
  filter_length_map f _ S.issues (fun i => by rw [hf i])

/-- Wellformedness survives appending a fresh issue at the next number. -/
theorem WF_create {S : TrackerState} (hWF : WFState S) (ni : Issue)
    (hn : ni.number = S.nextNum) (lg : List Mut) :
    WFState { issues := S.issues ++ [ni], log := lg, nextNum := S.nextNum + 1 } := by
  constructor
  · rw [List.map_append]
    refine List.Nodup.append hWF.1 (by simp) ?_
    intro a ha hb
    simp only [List.map_cons, List.map_nil, List.mem_singleton] at hb
    obtain ⟨j, hj, rfl⟩ := List.mem_map.mp ha
    have := hWF.2 j hj
    omega
  · intro i hi
    rcases List.mem_append.mp hi with h | h
    · exact Nat.lt_succ_of_lt (hWF.2 i h)
    · simp only [List.mem_singleton] at h
      rw [h, hn]
      exact Nat.lt_succ_self _

/-- A sweep-safe body shields its issue from the sweep. -/
theorem sweepCloses_false_of_safe {K : List Str} {i : Issue}
    (h : bodySweepSafe K i.body = true) : sweepCloses K i = false := by
  simp only [bodySweepSafe] at h
  cases hp : parseCloseInfo i.body with
  | none => simp [sweepCloses, hp]
  | some info =>
    rw [hp] at h
    have hall : info.2.2.all
        (fun line => !decide (vulnKey info.1 info.2.1 line ∈ K)) = false := by
      rw [List.any_eq_true] at h
      obtain ⟨line, hline, hlive⟩ := h
      cases hall' : info.2.2.all (fun line => !decide (vulnKey info.1 info.2.1 line ∈ K)) with
      | false => rfl
      | true =>
        have hthis := List.all_eq_true.mp hall' line hline
        simp only [decide_eq_true_eq] at hlive
        simp [hlive] at hthis
    simp [sweepCloses, hp, hall]

/-- A non-open issue is never swept. -/
theorem sweepCloses_false_of_not_open {K : List Str} {i : Issue}
    (h : i.state ≠ ofS "open") : sweepCloses K i = false := by
  simp [sweepCloses, h]

/-- The sweep keeps a witness whose body is sweep-safe. -/
theorem autoClose_preserves_witness {K : List Str} {S : TrackerState} {b : Str}
    (hsafe : bodySweepSafe K b = true) (hw : hasWitness S b) :
    hasWitness (autoCloseResolvedIssues K S).2 b := by
  obtain ⟨W, hWmem, hWopen, hWsent, hWbody⟩ := hw
  have hsw : sweepCloses K W = false := sweepCloses_false_of_safe (by rw [hWbody]; exact hsafe)
  refine ⟨W, ?_, hWopen, hWsent, hWbody⟩
  rw [autoClose_issues_eq]
  have heqW : (fun i => if sweepCloses K i then closeIssue i else i) W = W := by simp [hsw]
  exact heqW ▸ List.mem_map_of_mem _ hWmem

/-- Every issue left open by the sweep was not closable under its key set. -/
theorem autoClose_open_safe {K : List Str} {S : TrackerState} :
    ∀ i ∈ (autoCloseResolvedIssues K S).2.issues, i.state = ofS "open" →
      sweepCloses K i = false := by
  intro i hi hopen
  rw [autoClose_issues_eq] at hi
  obtain ⟨j, hj, rfl⟩ := List.mem_map.mp hi
  by_cases hsw : sweepCloses K j = true
  · rw [if_pos hsw] at hopen
    have hcl : (closeIssue j).state = ofS "closed" := rfl
    rw [hcl] at hopen
    exact absurd hopen (by decide)
  · rw [if_neg hsw]
    cases hb : sweepCloses K j with
    | false => rfl
    | true => exact absurd hb hsw

/-- When nothing is closable, the sweep is a no-op with a zero count. -/
theorem autoClose_noop {K : List Str} {S : TrackerState}
    (h : ∀ i ∈ S.issues, sweepCloses K i = false) :
    autoCloseResolvedIssues K S = (0, S) := by
  have hfilt : S.issues.filter (sweepCloses K) = [] :=
    List.filter_eq_nil_iff.mpr (fun i hi => by simp [h i hi])
  have hmap : S.issues.map (fun i => if sweepCloses K i then closeIssue i else i) = S.issues :=
    map_id_of_mem _ _ (fun i hi => by rw [h i hi]; simp)
  simp only [autoCloseResolvedIssues, hfilt, hmap]
  cases S
  simp

theorem countCreated_replicate (n : Nat) :
    countCreated (List.replicate n IssueAction.updated) = 0 := by
  induction n with
  | zero => rfl
  | succ k ih => simp [List.replicate, countCreated, ih]

theorem countUpdated_replicate (n : Nat) :
    countUpdated (List.replicate n IssueAction.updated) = n := by
  induction n with
  | zero => rfl
  | succ k ih => simp [List.replicate, countUpdated, ih]

/-- The update path installs an open sentinel witness carrying the rendered
body. -/
theorem update_makes_witness {cfg : Config} {m : Mappings} {fetch : Str → Str → Option Str}
    {g : GroupedFinding} {S : TrackerState} {X : Issue}
    (hfind : findExistingIssue (some (openSentinelIssues S)) g = some X)
    (hsent : ofS "codeql-finding" ∈ labelsFor cfg m g) :
    hasWitness (reconStep cfg m fetch g S).1 (bodyFor cfg m fetch g) := by
  obtain ⟨hXmem, hXopen, _, _, _⟩ := findExisting_props hfind
  rw [reconStep_update hfind]
  refine ⟨{ X with body := bodyFor cfg m fetch g, labels := labelsFor cfg m g }, ?_,
    hXopen, hsent, rfl⟩
  exact List.mem_map.mpr ⟨X, hXmem, by simp⟩

/-- The update path keeps any witness whose body only cross-matches its own
finding: an untouched witness survives unchanged, and a clobbered one is
rewritten to the very body it already carried. -/
theorem update_keeps_witness {cfg : Config} {m : Mappings} {fetch : Str → Str → Option Str}
    {g : GroupedFinding} {S : TrackerState} {X : Issue} {b : Str}
    (hWF : WFState S)
    (hfind : findExistingIssue (some (openSentinelIssues S)) g = some X)
    (hcross : containsSub b (tick g.ruleId) = true ∧ containsSub b (tick g.filePath) = true →
      b = bodyFor cfg m fetch g)
    (hsent : ofS "codeql-finding" ∈ labelsFor cfg m g)
    (hw : hasWitness S b) : hasWitness (reconStep cfg m fetch g S).1 b := by
  obtain ⟨W, hWmem, hWopen, hWsent, hWbody⟩ := hw
  obtain ⟨hXmem, hXopen, hXsent, hXr, hXf⟩ := findExisting_props hfind
  rw [reconStep_update hfind]
  by_cases hnum : W.number = X.number
  · have hWX : W = X := eq_of_number_eq hWF hWmem hXmem hnum
    have hb : b = bodyFor cfg m fetch g := by
      apply hcross
      rw [← hWbody, hWX]
      exact ⟨hXr, hXf⟩
    refine ⟨{ X with body := bodyFor cfg m fetch g, labels := labelsFor cfg m g }, ?_,
      hXopen, hsent, by rw [hb]⟩
    exact List.mem_map.mpr ⟨X, hXmem, by simp⟩
  · refine ⟨W, ?_, hWopen, hWsent, hWbody⟩
    exact List.mem_map.mpr ⟨W, hWmem, by simp [hnum]⟩

/-- The create path installs an open sentinel witness carrying the rendered
body. -/
theorem create_makes_witness {cfg : Config} {m : Mappings} {fetch : Str → Str → Option Str}
    {g : GroupedFinding} {S : TrackerState}
    (hfind : findExistingIssue (some (openSentinelIssues S)) g = none)
    (hsent : ofS "codeql-finding" ∈ labelsFor cfg m g) :
    hasWitness (reconStep cfg m fetch g S).1 (bodyFor cfg m fetch g) := by
  rw [reconStep_create hfind]
  exact ⟨createdIssue cfg S g (bodyFor cfg m fetch g) (labelsFor cfg m g),
    List.mem_append_right _ (by simp), rfl, hsent, rfl⟩

/-- The create path keeps every existing witness. -/
theorem create_keeps_witness {cfg : Config} {m : Mappings} {fetch : Str → Str → Option Str}
    {g : GroupedFinding} {S : TrackerState} {b : Str}
    (hfind : findExistingIssue (some (openSentinelIssues S)) g = none)
    (hw : hasWitness S b) : hasWitness (reconStep cfg m fetch g S).1 b := by
  obtain ⟨W, hWmem, h1, h2, h3⟩ := hw
  rw [reconStep_create hfind]
  exact ⟨W, List.mem_append_left _ hWmem, h1, h2, h3⟩

/-- One reconciliation step preserves tracker wellformedness. -/
theorem reconStep_WF {cfg : Config} {m : Mappings} {fetch : Str → Str → Option Str}
    {g : GroupedFinding} {S : TrackerState} (hWF : WFState S) :
    WFState (reconStep cfg m fetch g S).1 := by
  cases hfind : findExistingIssue (some (openSentinelIssues S)) g with
  | some X =>
    rw [reconStep_update hfind]
    exact WF_of_map hWF _ (fun i => by by_cases h : i.number = X.number <;> simp [h]) _
  | none =>
    rw [reconStep_create hfind]
    exact WF_create hWF _ rfl _

/-- The update path keeps the open-item count. -/
theorem reconStep_update_openCount {cfg : Config} {m : Mappings}
    {fetch : Str → Str → Option Str} {g : GroupedFinding} {S : TrackerState} {X : Issue}
    (hfind : findExistingIssue (some (openSentinelIssues S)) g = some X) :
    openCount (reconStep cfg m fetch g S).1 = openCount S := by
  rw [reconStep_update hfind]
  exact openCount_of_map S _ (fun i => by by_cases h : i.number = X.number <;> simp [h]) _

/-- After an update, every issue is an old one or carries the rendered body. -/
theorem reconStep_update_provenance {cfg : Config} {m : Mappings}
    {fetch : Str → Str → Option Str} {g : GroupedFinding} {S : TrackerState} {X : Issue}
    (hfind : findExistingIssue (some (openSentinelIssues S)) g = some X) :
    ∀ i ∈ (reconStep cfg m fetch g S).1.issues,
      i ∈ S.issues ∨ i.body = bodyFor cfg m fetch g := by
  rw [reconStep_update hfind]
  intro i hi
  obtain ⟨j, hj, rfl⟩ := List.mem_map.mp hi
  by_cases h : j.number = X.number
  · right; simp [h]
  · left; simpa [h] using hj

/-- The sweep preserves tracker wellformedness. -/
theorem autoClose_WF {K : List Str} {S : TrackerState} (hWF : WFState S) :
    WFState (autoCloseResolvedIssues K S).2 :=
  WF_of_map hWF _
    (fun i => by by_cases h : sweepCloses K i = true <;> simp [h, closeIssue]) _

/-- The reconciliation fold over a family with honest markers: it preserves
wellformedness, keeps every witness whose body only self-matches, and leaves
each processed finding an open sentinel witness carrying its rendered body. -/
theorem reconGo_establishes (cfg : Config) (m : Mappings) (fetch : Str → Str → Option Str)
    (F : List GroupedFinding)
    (Hsent : ∀ g ∈ F, ofS "codeql-finding" ∈ labelsFor cfg m g)
    (Huniq : ∀ g ∈ F, ∀ g' ∈ F,
      containsSub (bodyFor cfg m fetch g') (tick g.ruleId) = true ∧
      containsSub (bodyFor cfg m fetch g') (tick g.filePath) = true →
      bodyFor cfg m fetch g' = bodyFor cfg m fetch g) :
    ∀ (L : List GroupedFinding), (∀ g ∈ L, g ∈ F) → ∀ (S : TrackerState), WFState S →
    WFState (reconGo cfg m fetch L S).1 ∧
    (∀ b, (∀ g ∈ L, containsSub b (tick g.ruleId) = true ∧
        containsSub b (tick g.filePath) = true → b = bodyFor cfg m fetch g) →
      hasWitness S b → hasWitness (reconGo cfg m fetch L S).1 b) ∧
    (∀ g ∈ L, hasWitness (reconGo cfg m fetch L S).1 (bodyFor cfg m fetch g)) := by
  intro L
  induction L with
  | nil =>
    intro _ S hWF
    exact ⟨hWF, fun b _ hw => hw, fun g hg => absurd hg (List.not_mem_nil g)⟩
  | cons g L' ih =>
    intro hLF S hWF
    have hgF : g ∈ F := hLF g (by simp)
    have hL'F : ∀ x ∈ L', x ∈ F := fun x hx => hLF x (by simp [hx])
    have hWF' : WFState (reconStep cfg m fetch g S).1 := reconStep_WF hWF
    have hkeep : ∀ b, (containsSub b (tick g.ruleId) = true ∧
        containsSub b (tick g.filePath) = true → b = bodyFor cfg m fetch g) →
        hasWitness S b → hasWitness (reconStep cfg m fetch g S).1 b := by
      intro b hcross hw
      cases hfind : findExistingIssue (some (openSentinelIssues S)) g with
      | some X => exact update_keeps_witness hWF hfind hcross (Hsent g hgF) hw
      | none => exact create_keeps_witness hfind hw
    have hnew : hasWitness (reconStep cfg m fetch g S).1 (bodyFor cfg m fetch g) := by
      cases hfind : findExistingIssue (some (openSentinelIssues S)) g with
      | some X => exact update_makes_witness hfind (Hsent g hgF)
      | none => exact create_makes_witness hfind (Hsent g hgF)
    obtain ⟨ihWF, ihKeep, ihEst⟩ := ih hL'F (reconStep cfg m fetch g S).1 hWF'
    refine ⟨ihWF, ?_, ?_⟩
    · intro b hfam hw
      exact ihKeep b (fun x hx => hfam x (by simp [hx])) (hkeep b (hfam g (by simp)) hw)
    · intro x hx
      rcases List.mem_cons.mp hx with rfl | hx'
      · exact ihKeep (bodyFor cfg m fetch x) (fun y hy => Huniq y (hL'F y hy) x hgF) hnew
      · exact ihEst x hx'

/-- The reconciliation fold from a state holding a witness for every family
body takes the update path throughout: every action is an update, the open
count and wellformedness are preserved, every family witness survives, and
every resulting issue is an old one or carries a family body. -/
theorem reconGo_all_updates (cfg : Config) (m : Mappings) (fetch : Str → Str → Option Str)
    (F : List GroupedFinding)
    (Hown : ∀ g ∈ F, containsSub (bodyFor cfg m fetch g) (tick g.ruleId) = true ∧
      containsSub (bodyFor cfg m fetch g) (tick g.filePath) = true)
    (Hsent : ∀ g ∈ F, ofS "codeql-finding" ∈ labelsFor cfg m g)
    (Huniq : ∀ g ∈ F, ∀ g' ∈ F,
      containsSub (bodyFor cfg m fetch g') (tick g.ruleId) = true ∧
      containsSub (bodyFor cfg m fetch g') (tick g.filePath) = true →
      bodyFor cfg m fetch g' = bodyFor cfg m fetch g) :
    ∀ (L : List GroupedFinding), (∀ g ∈ L, g ∈ F) → ∀ (S : TrackerState), WFState S →
    (∀ g ∈ F, hasWitness S (bodyFor cfg m fetch g)) →
    (reconGo cfg m fetch L S).2 = List.replicate L.length IssueAction.updated ∧
    openCount (reconGo cfg m fetch L S).1 = openCount S ∧
    WFState (reconGo cfg m fetch L S).1 ∧
    (∀ g ∈ F, hasWitness (reconGo cfg m fetch L S).1 (bodyFor cfg m fetch g)) ∧
    (∀ i ∈ (reconGo cfg m fetch L S).1.issues, i ∈ S.issues ∨
      ∃ g ∈ F, i.body = bodyFor cfg m fetch g) := by
  intro L
  induction L with
  | nil =>
    intro _ S hWF hw
    exact ⟨rfl, rfl, hWF, hw, fun i hi => Or.inl hi⟩
  | cons g L' ih =>
    intro hLF S hWF hw
    have hgF : g ∈ F := hLF g (by simp)
    have hL'F : ∀ x ∈ L', x ∈ F := fun x hx => hLF x (by simp [hx])
    obtain ⟨X, hfind⟩ := findExisting_hits (hw g hgF) (Hown g hgF).1 (Hown g hgF).2
    have hstep2 : (reconStep cfg m fetch g S).2 = IssueAction.updated := by
      rw [reconStep_update hfind]
    have hWF' : WFState (reconStep cfg m fetch g S).1 := reconStep_WF hWF
    have hopen' : openCount (reconStep cfg m fetch g S).1 = openCount S :=
      reconStep_update_openCount hfind
    have hw' : ∀ x ∈ F, hasWitness (reconStep cfg m fetch g S).1 (bodyFor cfg m fetch x) :=
      fun x hxF =>
        update_keeps_witness hWF hfind (Huniq g hgF x hxF) (Hsent g hgF) (hw x hxF)
    have hprov' := @reconStep_update_provenance cfg m fetch g S X hfind
    obtain ⟨ihActs, ihOpen, ihWF, ihW, ihProv⟩ := ih hL'F (reconStep cfg m fetch g S).1 hWF' hw'
    refine ⟨?_, ?_, ihWF, ihW, ?_⟩
    · show (reconStep cfg m fetch g S).2 ::
        (reconGo cfg m fetch L' (reconStep cfg m fetch g S).1).2 =
        List.replicate (g :: L').length IssueAction.updated
      rw [hstep2, ihActs]
      rfl
    · show openCount (reconGo cfg m fetch L' (reconStep cfg m fetch g S).1).1 = openCount S
      rw [ihOpen, hopen']
    · intro i hi
      rcases ihProv i hi with hin | hbody
      · rcases hprov' i hin with hin2 | hb
        · exact Or.inl hin2
        · exact Or.inr ⟨g, hgF, hb⟩
      · exact Or.inr hbody

/-- **C1** (corrected): rerunning the reconciliation with an unchanged report
and the tracker state left by the first run performs an update (never a
duplicate create) for each actionable grouped finding and leaves the
open-item count unchanged — provided the tracker is wellformed, each
actionable finding's rendered body carries its own backtick markers, no
rendered body carries the marker pair of a differently-rendered finding
(rendered bodies cross-match only through snippet text, which this rules
out: a cross-match implies the findings coincide), and no rendered body is closable by the run's own auto-close sweep.
Without the cross-match exclusion the property fails; see the
counterexample. -/
theorem c1_unchanged_rerun_updates_only
    (cfg : Config) (m : Mappings) (fetch : Str → Str → Option Str) (fs : List Finding)
    (S0 : TrackerState) (P : List GroupedFinding)
    (hP : P = procRef cfg m (groupFindingsByRuleAndFile fs) 0)
    (hWF : WFState S0)
    (Hown : ∀ g ∈ P, containsSub (bodyFor cfg m fetch g) (tick g.ruleId) = true ∧
      containsSub (bodyFor cfg m fetch g) (tick g.filePath) = true)
    (Huniq : ∀ g ∈ P, ∀ g' ∈ P,
      containsSub (bodyFor cfg m fetch g') (tick g.ruleId) = true ∧
      containsSub (bodyFor cfg m fetch g') (tick g.filePath) = true → g' = g)
    (Hsafe : ∀ g ∈ P, bodySweepSafe (P.flatMap occKeys) (bodyFor cfg m fetch g) = true) :
    (processFindings cfg m fetch listAlwaysOk fs
        (processFindings cfg m fetch listAlwaysOk fs S0).2).1.created = 0 ∧
    (processFindings cfg m fetch listAlwaysOk fs
        (processFindings cfg m fetch listAlwaysOk fs S0).2).1.updated = P.length ∧
    openCount (processFindings cfg m fetch listAlwaysOk fs
        (processFindings cfg m fetch listAlwaysOk fs S0).2).2 =
      openCount (processFindings cfg m fetch listAlwaysOk fs S0).2 := by
  have Hsent : ∀ g ∈ P, ofS "codeql-finding" ∈ labelsFor cfg m g := by
    intro g hg
    rw [hP] at hg
    exact sentinel_mem_labelsFor (mem_procRef hg).2.2
  have HuniqB : ∀ g ∈ P, ∀ g' ∈ P,
      containsSub (bodyFor cfg m fetch g') (tick g.ruleId) = true ∧
      containsSub (bodyFor cfg m fetch g') (tick g.filePath) = true →
      bodyFor cfg m fetch g' = bodyFor cfg m fetch g :=
    fun g hg g' hg' hc => congrArg (fun x => bodyFor cfg m fetch x) (Huniq g hg g' hg' hc)
  obtain ⟨hst1, hkeys1, hcre1, hupd1, herr1⟩ := processGo_spec cfg m fetch
    (groupFindingsByRuleAndFile fs).length (groupFindingsByRuleAndFile fs) 0 []
    (initResults fs.length) S0
  rw [← hP] at hst1 hkeys1
  have hkeys1' := hkeys1.trans (List.nil_append _)
  have hS1 : (processFindings cfg m fetch listAlwaysOk fs S0).2 =
      (autoCloseResolvedIssues (P.flatMap occKeys) (reconGo cfg m fetch P S0).1).2 := by
    show (autoCloseResolvedIssues
      (processGo cfg m fetch listAlwaysOk (groupFindingsByRuleAndFile fs).length
        (groupFindingsByRuleAndFile fs) 0 [] (initResults fs.length) S0).2.1
      (processGo cfg m fetch listAlwaysOk (groupFindingsByRuleAndFile fs).length
        (groupFindingsByRuleAndFile fs) 0 [] (initResults fs.length) S0).2.2).2 = _
    rw [hkeys1', hst1]
  obtain ⟨hWFT1, _, hEstT1⟩ := reconGo_establishes cfg m fetch P Hsent HuniqB P
    (fun g hg => hg) S0 hWF
  have hWFS1 : WFState (processFindings cfg m fetch listAlwaysOk fs S0).2 := by
    rw [hS1]
    exact autoClose_WF hWFT1
  have hWS1 : ∀ g ∈ P, hasWitness (processFindings cfg m fetch listAlwaysOk fs S0).2
      (bodyFor cfg m fetch g) := by
    intro g hg
    rw [hS1]
    exact autoClose_preserves_witness (Hsafe g hg) (hEstT1 g hg)
  obtain ⟨hst2, hkeys2, hcre2, hupd2, herr2⟩ := processGo_spec cfg m fetch
    (groupFindingsByRuleAndFile fs).length (groupFindingsByRuleAndFile fs) 0 []
    (initResults fs.length) ((processFindings cfg m fetch listAlwaysOk fs S0).2)
  rw [← hP] at hst2 hkeys2 hcre2 hupd2
  have hkeys2' := hkeys2.trans (List.nil_append _)
  obtain ⟨hacts2, hopen2, hWFT2, hWT2, hprov2⟩ := reconGo_all_updates cfg m fetch P
    Hown Hsent HuniqB P (fun g hg => hg)
    ((processFindings cfg m fetch listAlwaysOk fs S0).2) hWFS1 hWS1
  refine ⟨?_, ?_, ?_⟩
  · show (processGo cfg m fetch listAlwaysOk (groupFindingsByRuleAndFile fs).length
        (groupFindingsByRuleAndFile fs) 0 [] (initResults fs.length)
        ((processFindings cfg m fetch listAlwaysOk fs S0).2)).1.created = 0
    rw [hcre2, hacts2, countCreated_replicate]
    rfl
  · show (processGo cfg m fetch listAlwaysOk (groupFindingsByRuleAndFile fs).length
        (groupFindingsByRuleAndFile fs) 0 [] (initResults fs.length)
        ((processFindings cfg m fetch listAlwaysOk fs S0).2)).1.updated = P.length
    rw [hupd2, hacts2, countUpdated_replicate]
    exact Nat.zero_add _
  · have hnoop : autoCloseResolvedIssues (P.flatMap occKeys)
        (reconGo cfg m fetch P ((processFindings cfg m fetch listAlwaysOk fs S0).2)).1 =
        (0, (reconGo cfg m fetch P ((processFindings cfg m fetch listAlwaysOk fs S0).2)).1) := by
      apply autoClose_noop
      intro i hi
      rcases hprov2 i hi with hin | ⟨g, hgP, hbody⟩
      · by_cases hop : i.state = ofS "open"
        · rw [hS1] at hin
          exact autoClose_open_safe i hin hop
        · exact sweepCloses_false_of_not_open hop
      · exact sweepCloses_false_of_safe (by rw [hbody]; exact Hsafe g hgP)
    show openCount (autoCloseResolvedIssues
        (processGo cfg m fetch listAlwaysOk (groupFindingsByRuleAndFile fs).length
          (groupFindingsByRuleAndFile fs) 0 [] (initResults fs.length)
          ((processFindings cfg m fetch listAlwaysOk fs S0).2)).2.1
        (processGo cfg m fetch listAlwaysOk (groupFindingsByRuleAndFile fs).length
          (groupFindingsByRuleAndFile fs) 0 [] (initResults fs.length)
          ((processFindings cfg m fetch listAlwaysOk fs S0).2)).2.2).2 =
      openCount (processFindings cfg m fetch listAlwaysOk fs S0).2
    rw [hkeys2', hst2, hnoop]
    exact hopen2

/-- C1 witness: one actionable high-severity finding on a fresh tracker —
the second run records zero creates, one update, and leaves the single open
item in place. -/
theorem c1_witness :
    (processFindings fixCfg fixM noFetch listAlwaysOk [hiFindingA]
        (processFindings fixCfg fixM noFetch listAlwaysOk [hiFindingA]
          emptyTracker).2).1.created = 0 ∧
    (processFindings fixCfg fixM noFetch listAlwaysOk [hiFindingA]
        (processFindings fixCfg fixM noFetch listAlwaysOk [hiFindingA]
          emptyTracker).2).1.updated =
      (procRef fixCfg fixM (groupFindingsByRuleAndFile [hiFindingA]) 0).length ∧
    openCount (processFindings fixCfg fixM noFetch listAlwaysOk [hiFindingA]
        (processFindings fixCfg fixM noFetch listAlwaysOk [hiFindingA] emptyTracker).2).2 =
      openCount (processFindings fixCfg fixM noFetch listAlwaysOk [hiFindingA]
        emptyTracker).2 :=
  c1_unchanged_rerun_updates_only fixCfg fixM noFetch [hiFindingA] emptyTracker
    (procRef fixCfg fixM (groupFindingsByRuleAndFile [hiFindingA]) 0) rfl (by decide)
    (by decide) (by decide) (by decide)

/-- **C1** counterexample: a finding whose code snippet spells out another
finding's backtick markers makes the first run's body cross-match the second
finding's dedup lookup, which hijacks the update; on the rerun with the
unchanged report and the resulting tracker state a duplicate create occurs
and the open-item count grows from 1 to 2. -/
theorem c1_cross_match_counterexample :
    openCount (processFindings fixCfg fixM noFetch listAlwaysOk crossFs emptyTracker).2 = 1 ∧
    (processFindings fixCfg fixM noFetch listAlwaysOk crossFs
      (processFindings fixCfg fixM noFetch listAlwaysOk crossFs
        emptyTracker).2).1.created = 1 ∧
    openCount (processFindings fixCfg fixM noFetch listAlwaysOk crossFs
      (processFindings fixCfg fixM noFetch listAlwaysOk crossFs emptyTracker).2).2 = 2 := by
  decide


end S2P
